import Mathlib

/-!
# Verification of the CLEED multiple-scattering engine against its specification

Shallow embedding of the algorithmic core of the CLEED package (LEED
multiple-scattering calculations).  Conventions used throughout:

* the C type real (double) is idealized as the exact real numbers ℝ;
* a pair of real/imaginary parts (rel, iel) is idealized as a complex number ℂ;
* the dynamically allocated mat type (row-major, 1-based, element (m,n) at
  linear position (m-1)*cols + n, see mat_def.h) is embedded as
  Matrix (Fin r) (Fin c) ℂ;
* angular-momentum indexed vectors and matrices use the natural order
  index(l,m) = l*(l+1) + m (0-based), so the l quantum number of a 0-based
  index i is Nat.sqrt i;
* matrix primitives that are part of the repository but not present under
  the available sources (matmul, matinv, matcopy, cri_mul, cri_expi, ...)
  are modelled from the specification of the Complex Matrix Engine:
  matmul is matrix multiplication, matinv is matrix inversion (Matrix.inv),
  matcopy replaces the destination wholesale, cri_mul is complex
  multiplication and cri_expi r i is exp(I*(r + i*I)).
-/

namespace CLEED

noncomputable section

/-- Geometric tolerance constant GEO_TOLERANCE (default 0.0001, leed_def.h). -/
def GEO_TOLERANCE : ℝ := 1/10000

/-- Modelled from the spec: the complex helper cri_expi (Special Functions
component, source not available).  cri_expi(pr, pi) returns the complex
exponential of the complex phase pr + pi*I multiplied by I, i.e.
exp(I*(pr + pi*I)); this matches the propagator documentation of
lld2layrpm.c (lines 81-83). -/
def cri_expi (pr pim : ℝ) : ℂ := Complex.exp (Complex.I * (pr + pim * Complex.I))

/-- Multiply the k-th column of a square matrix with the k-th entry of a
vector: the pointer loops with stride n_beams in lld2layrpm.c
(lines 124-145 and 186-197). -/
def colScale {n : ℕ} (M : Matrix (Fin n) (Fin n) ℂ) (v : Fin n → ℂ) :
    Matrix (Fin n) (Fin n) ℂ :=
  Matrix.of fun i j => M i j * v j

/-- Add 1 to each diagonal element of a square matrix: the stride
(cols + 1) loop in lld2layrpm.c (lines 166-169). -/
def addOneDiag {n : ℕ} (M : Matrix (Fin n) (Fin n) ℂ) :
    Matrix (Fin n) (Fin n) ℂ :=
  Matrix.of fun i j => if i = j then M i j + 1 else M i j

theorem colScale_eq_mul_diagonal {n : ℕ} (M : Matrix (Fin n) (Fin n) ℂ)
    (v : Fin n → ℂ) : colScale M v = M * Matrix.diagonal v := by
  ext i j
  simp [colScale, Matrix.mul_diagonal]

theorem addOneDiag_eq_add_one {n : ℕ} (M : Matrix (Fin n) (Fin n) ℂ) :
    addOneDiag M = M + 1 := by
  ext i j
  by_cases h : i = j <;> simp [addOneDiag, Matrix.one_apply, h]

namespace LayerDoubling

/-- The beam data used by leed_ld_2lay_rpm: real parts k_r[1..3] of the wave
vector and imaginary part k_i[3] of its z component. -/
structure Beam where
  kr1 : ℝ
  kr2 : ℝ
  kr3 : ℝ
  ki3 : ℝ

/-- Embedding of leed_ld_2lay_rpm (lld2layrpm.c, lines 61-239).  The
displacement vector vec_ab is passed as its three components v1 v2 v3.
Each let-binding corresponds to one statement of the C function:
propagator vectors Pp/Pm (lines 96-115), the column scalings producing
(Ra+- P-) and -(Rb-+ P+) (lines 121-145), product and identity add
(lines 164-169), inversion (line 172), multiplication with Tb-- (line 175),
Res (line 178), the column scaling producing (Tb++ P+) (lines 184-197),
the final product (line 208) and the addition of Rb+- (lines 211-223). -/
def leed_ld_2lay_rpm {n : ℕ} (beams : Fin n → Beam) (v1 v2 v3 : ℝ)
    (Rpm_a Tpp_b Tmm_b Rpm_b Rmp_b : Matrix (Fin n) (Fin n) ℂ) :
    Matrix (Fin n) (Fin n) ℂ :=
  let Ppv : Fin n → ℂ := fun k =>
    cri_expi
      ((beams k).kr1 * v1 + (beams k).kr2 * v2 + (beams k).kr3 * v3)
      ((beams k).ki3 * v3)
  let Pmv : Fin n → ℂ := fun k =>
    cri_expi
      (-((beams k).kr1 * v1 + (beams k).kr2 * v2 + (beams k).kr3 * v3
          - 2 * ((beams k).kr3 * v3)))
      ((beams k).ki3 * v3)
  let MauxA := colScale Rpm_a Pmv
  let MauxB1 := colScale Rmp_b fun k => -(Ppv k)
  let MauxB2 := MauxB1 * MauxA
  let MauxB3 := addOneDiag MauxB2
  let MauxB4 := MauxB3⁻¹
  let MauxB5 := MauxB4 * Tmm_b
  let Res1 := MauxA * MauxB5
  let MauxB6 := colScale Tpp_b Ppv
  let Res2 := MauxB6 * Res1
  Res2 + Rpm_b

/-- The complex z component of a beam wave vector. -/
def kzc (b : Beam) : ℂ := (b.kr3 : ℂ) + (b.ki3 : ℂ) * Complex.I

/-- Propagator P+ exactly as stated in the claim: the k-th diagonal entry is
exp[i*(k_x v_x + k_y v_y + k_z v_z)] built from beam k and vec_ab. -/
def PpSpec {n : ℕ} (beams : Fin n → Beam) (v1 v2 v3 : ℝ) : Fin n → ℂ :=
  fun k =>
    Complex.exp (Complex.I *
      (((beams k).kr1 : ℂ) * (v1 : ℂ) + ((beams k).kr2 : ℂ) * (v2 : ℂ) +
        kzc (beams k) * (v3 : ℂ)))

/-- Propagator P- exactly as stated in the claim: the k-th diagonal entry is
exp[i*(-k_x v_x - k_y v_y + k_z v_z)]. -/
def PmSpec {n : ℕ} (beams : Fin n → Beam) (v1 v2 v3 : ℝ) : Fin n → ℂ :=
  fun k =>
    Complex.exp (Complex.I *
      (-(((beams k).kr1 : ℂ) * (v1 : ℂ)) - ((beams k).kr2 : ℂ) * (v2 : ℂ) +
        kzc (beams k) * (v3 : ℂ)))

/-- The closed-form layer-doubling reflection matrix as stated in the claim:
R_ab = R_b^{+-} + T_b^{++} P+ R_a^{+-} P- (I - R_b^{-+} P+ R_a^{+-} P-)⁻¹
T_b^{--}. -/
def RabFormula {n : ℕ} (beams : Fin n → Beam) (v1 v2 v3 : ℝ)
    (Rpm_a Tpp_b Tmm_b Rpm_b Rmp_b : Matrix (Fin n) (Fin n) ℂ) :
    Matrix (Fin n) (Fin n) ℂ :=
  Rpm_b +
    Tpp_b * Matrix.diagonal (PpSpec beams v1 v2 v3) * Rpm_a *
      Matrix.diagonal (PmSpec beams v1 v2 v3) *
      (1 - Rmp_b * Matrix.diagonal (PpSpec beams v1 v2 v3) * Rpm_a *
          Matrix.diagonal (PmSpec beams v1 v2 v3))⁻¹ *
      Tmm_b

theorem cri_expi_Pp {n : ℕ} (beams : Fin n → Beam) (v1 v2 v3 : ℝ) (k : Fin n) :
    cri_expi
      ((beams k).kr1 * v1 + (beams k).kr2 * v2 + (beams k).kr3 * v3)
      ((beams k).ki3 * v3) = PpSpec beams v1 v2 v3 k := by
  unfold cri_expi PpSpec kzc
  congr 1
  push_cast
  ring

theorem cri_expi_Pm {n : ℕ} (beams : Fin n → Beam) (v1 v2 v3 : ℝ) (k : Fin n) :
    cri_expi
      (-((beams k).kr1 * v1 + (beams k).kr2 * v2 + (beams k).kr3 * v3
          - 2 * ((beams k).kr3 * v3)))
      ((beams k).ki3 * v3) = PmSpec beams v1 v2 v3 k := by
  unfold cri_expi PmSpec kzc
  congr 1
  push_cast
  ring

/-- Claim C1: for every pair of layer matrix sets, every beam list and every
displacement vector with positive z component, leed_ld_2lay_rpm returns
R_ab = R_b^{+-} + T_b^{++} P+ R_a^{+-} P- (I - R_b^{-+} P+ R_a^{+-} P-)⁻¹
T_b^{--}, where P+ and P- are the diagonal propagator matrices with entries
exp[i(k_x v_x + k_y v_y + k_z v_z)] and exp[i(-k_x v_x - k_y v_y + k_z v_z)]
built from the beam wave vectors and vec_ab. -/
theorem claim_C1 {n : ℕ} (beams : Fin n → Beam) (v1 v2 v3 : ℝ)
    (hv3 : 0 < v3)
    (Rpm_a Tpp_b Tmm_b Rpm_b Rmp_b : Matrix (Fin n) (Fin n) ℂ) :
    leed_ld_2lay_rpm beams v1 v2 v3 Rpm_a Tpp_b Tmm_b Rpm_b Rmp_b =
      RabFormula beams v1 v2 v3 Rpm_a Tpp_b Tmm_b Rpm_b Rmp_b := by
  unfold leed_ld_2lay_rpm RabFormula
  have hPp : (fun k : Fin n =>
      cri_expi
        ((beams k).kr1 * v1 + (beams k).kr2 * v2 + (beams k).kr3 * v3)
        ((beams k).ki3 * v3)) = PpSpec beams v1 v2 v3 := by
    funext k
    exact cri_expi_Pp beams v1 v2 v3 k
  have hPm : (fun k : Fin n =>
      cri_expi
        (-((beams k).kr1 * v1 + (beams k).kr2 * v2 + (beams k).kr3 * v3
            - 2 * ((beams k).kr3 * v3)))
        ((beams k).ki3 * v3)) = PmSpec beams v1 v2 v3 := by
    funext k
    exact cri_expi_Pm beams v1 v2 v3 k
  have hPpNeg : (fun k : Fin n =>
      -(cri_expi
        ((beams k).kr1 * v1 + (beams k).kr2 * v2 + (beams k).kr3 * v3)
        ((beams k).ki3 * v3))) =
      fun k => -(PpSpec beams v1 v2 v3 k) := by
    funext k
    rw [cri_expi_Pp]
  simp only [hPp, hPm, hPpNeg, colScale_eq_mul_diagonal, addOneDiag_eq_add_one]
  have hneg : Rmp_b * Matrix.diagonal (fun k => -(PpSpec beams v1 v2 v3 k)) =
      -(Rmp_b * Matrix.diagonal (PpSpec beams v1 v2 v3)) := by
    have hd : (Matrix.diagonal (fun k => -(PpSpec beams v1 v2 v3 k)) :
        Matrix (Fin n) (Fin n) ℂ) =
        -(Matrix.diagonal (PpSpec beams v1 v2 v3)) := by
      ext i j
      by_cases h : i = j <;> simp [Matrix.diagonal, h]
    rw [hd, Matrix.mul_neg]
  rw [hneg]
  rw [show -(Rmp_b * Matrix.diagonal (PpSpec beams v1 v2 v3)) *
        (Rpm_a * Matrix.diagonal (PmSpec beams v1 v2 v3)) + 1 =
      1 - Rmp_b * Matrix.diagonal (PpSpec beams v1 v2 v3) * Rpm_a *
        Matrix.diagonal (PmSpec beams v1 v2 v3) by
    rw [Matrix.neg_mul, neg_add_eq_sub]
    simp only [mul_assoc]]
  rw [add_comm]
  congr 1
  simp only [mul_assoc]

/-- Witness for claim C1 at a concrete input: one beam with zero wave vector,
displacement (0, 0, 1), all five input matrices zero. -/
theorem claim_C1_witness :
    (0 : ℝ) < 1 ∧
      leed_ld_2lay_rpm (fun _ : Fin 1 => ⟨0, 0, 0, 0⟩) 0 0 1 0 0 0 0 0 =
        RabFormula (fun _ : Fin 1 => ⟨0, 0, 0, 0⟩) 0 0 1 0 0 0 0 0 :=
  ⟨by norm_num,
    claim_C1 (fun _ : Fin 1 => ⟨0, 0, 0, 0⟩) 0 0 1 (by norm_num) 0 0 0 0 0⟩

end LayerDoubling

namespace Cumulant

/-- Iteration bound NITER of lpccumtl.c. -/
def NITER : ℕ := 1000

/-- Convergence constant CONV_TEST of lpccumtl.c (0.000001), to be multiplied
by the squared matrix dimension. -/
def CONV_TEST : ℝ := 1/1000000

/-- Square complex matrix of dimension d. -/
abbrev CMat (d : ℕ) := Matrix (Fin d) (Fin d) ℂ

/-- The six matrices Mx, My, Mz, MxMx, MyMy, MzMz produced by pc_mk_ms.
Modelled from the spec: pc_mk_ms (the dipole-operator matrices and their
self-products, memoized per l_max) is not among the available sources, so
the matrices enter the embedding as parameters. -/
structure MsSet (d : ℕ) where
  Mx : CMat d
  My : CMat d
  Mz : CMat d
  MxMx : CMat d
  MyMy : CMat d
  MzMz : CMat d

/-- The zero-order matrix t^(0) written to T_n by the loop of lpccumtl.c
lines 141-149: the diagonal entry at natural 0-based index i = l*(l+1)+m
holds -tl(l)/kappa for l = Nat.sqrt i up to the (clamped) l_max_0; all
other entries stay zero from matalloc. -/
def T0mat (d : ℕ) (lmax0 : ℕ) (tl : ℕ → ℂ) (κ : ℝ) : CMat d :=
  Matrix.of fun i j =>
    if i = j ∧ Nat.sqrt (i : ℕ) ≤ lmax0 then
      -(tl (Nat.sqrt (i : ℕ))) / (κ : ℂ)
    else 0

/-- Relative-error pair of lpccumtl.c lines 301-314: for each matrix element
whose accumulated real (imaginary) part is nonzero, add the absolute value
of the quotient of the last increment by the accumulated value.
IS_EQUAL_REAL is modelled as exact equality. -/
def relerr {d : ℕ} (Tn Tacc : CMat d) : ℝ × ℝ :=
  (∑ i, ∑ j, if (Tacc i j).re = 0 then 0 else |(Tn i j).re / (Tacc i j).re|,
   ∑ i, ∑ j, if (Tacc i j).im = 0 then 0 else |(Tn i j).im / (Tacc i j).im|)

/-- Mutable state of the iteration loop of lpccumtl.c: current increment T_n,
accumulator T_acc and the two relative errors. -/
structure LoopState (d : ℕ) where
  Tn : CMat d
  Tacc : CMat d
  errR : ℝ
  errI : ℝ

section CumulLoop

variable {d : ℕ} (M : MsSet d) (ux2 uy2 uz2 κ conv : ℝ) (T0 : CMat d)

/-- The cumulant combination of Eq. 35 (lpccumtl.c lines 283-291):
sum over the axes a of ua^2 * (Ma Ma T + T Ma Ma - 2 Ma T Ma), each
product written in the order the C code multiplies (lines 234-262). -/
def comb (T : CMat d) : CMat d :=
  ux2 • (M.MxMx * T + T * M.MxMx - (2 : ℝ) • (M.Mx * (T * M.Mx))) +
    uy2 • (M.MyMy * T + T * M.MyMy - (2 : ℝ) • (M.My * (T * M.My))) +
    uz2 • (M.MzMz * T + T * M.MzMz - (2 : ℝ) • (M.Mz * (T * M.Mz)))

/-- One loop body at counter value i (lpccumtl.c lines 230-317): replace T_n
by -kappa^2/i * comb(T_n) (Eq. 35 with pref = -kappa*kappa/i_iter),
accumulate into T_acc (Eq. 34), then recompute the relative errors. -/
def stepState (i : ℕ) (s : LoopState d) : LoopState d :=
  let pref : ℝ := -(κ * κ) / (i : ℝ)
  let TnNew := pref • comb M ux2 uy2 uz2 s.Tn
  let TaccNew := s.Tacc + TnNew
  ⟨TnNew, TaccNew, (relerr TnNew TaccNew).1, (relerr TnNew TaccNew).2⟩

/-- The iteration loop of lpccumtl.c lines 226-319: while the counter is
below NITER and one of the relative errors exceeds the threshold, run the
body and increment the counter.  The fuel argument only bounds the
recursion; with fuel = NITER it never runs out. -/
def runAux : ℕ → ℕ → LoopState d → ℕ × LoopState d
  | 0, i, s => (i, s)
  | fuel + 1, i, s =>
      if i < NITER ∧ (conv < s.errR ∨ conv < s.errI) then
        runAux fuel (i + 1) (stepState M ux2 uy2 uz2 κ i s)
      else (i, s)

/-- The cumulant sequence exactly as the claim states it:
T_(n+1) = -kappa^2/(n+1) * sum over the axes of
u_a^2 (Ma Ma T_n + T_n Ma Ma - 2 Ma T_n Ma), starting from the T=0 matrix. -/
def specT : ℕ → CMat d
  | 0 => T0
  | n + 1 => (-(κ * κ) / ((n : ℝ) + 1)) • comb M ux2 uy2 uz2 (specT n)

/-- Accumulated cumulant series after n iterations (T_acc of the claim). -/
def specAcc (n : ℕ) : CMat d :=
  ∑ j ∈ Finset.range (n + 1), specT M ux2 uy2 uz2 κ T0 j

/-- Relative errors held in the loop state after n executed iterations
(after zero iterations both are initialized to twice the threshold,
lpccumtl.c line 224). -/
def errAt (n : ℕ) : ℝ × ℝ :=
  if n = 0 then (2 * conv, 2 * conv)
  else relerr (specT M ux2 uy2 uz2 κ T0 n) (specAcc M ux2 uy2 uz2 κ T0 n)

/-- The loop continues after n executed iterations iff one of the relative
errors still exceeds the threshold. -/
def ContinueCond (n : ℕ) : Prop :=
  conv < (errAt M ux2 uy2 uz2 κ conv T0 n).1 ∨
    conv < (errAt M ux2 uy2 uz2 κ conv T0 n).2

/-- The loop state after n executed iterations. -/
def stateAt (n : ℕ) : LoopState d :=
  ⟨specT M ux2 uy2 uz2 κ T0 n, specAcc M ux2 uy2 uz2 κ T0 n,
    (errAt M ux2 uy2 uz2 κ conv T0 n).1, (errAt M ux2 uy2 uz2 κ conv T0 n).2⟩

theorem stateAt_zero :
    stateAt M ux2 uy2 uz2 κ conv T0 0 = ⟨T0, T0, 2 * conv, 2 * conv⟩ := by
  simp [stateAt, specT, specAcc, errAt]

theorem stepState_stateAt (n : ℕ) (hn : 1 ≤ n) :
    stepState M ux2 uy2 uz2 κ n (stateAt M ux2 uy2 uz2 κ conv T0 (n - 1)) =
      stateAt M ux2 uy2 uz2 κ conv T0 n := by
  obtain ⟨m, rfl⟩ : ∃ m, n = m + 1 := ⟨n - 1, (Nat.succ_pred_eq_of_pos hn).symm⟩
  have hT : specT M ux2 uy2 uz2 κ T0 (m + 1) =
      (-(κ * κ) / ((m + 1 : ℕ) : ℝ)) •
        comb M ux2 uy2 uz2 (specT M ux2 uy2 uz2 κ T0 m) := by
    rw [specT]
    push_cast
    ring_nf
  have hAcc : specAcc M ux2 uy2 uz2 κ T0 (m + 1) =
      specAcc M ux2 uy2 uz2 κ T0 m + specT M ux2 uy2 uz2 κ T0 (m + 1) := by
    rw [specAcc, specAcc, Finset.sum_range_succ]
  simp only [stepState, stateAt, Nat.add_sub_cancel]
  rw [LoopState.mk.injEq]
  constructor
  · exact hT.symm
  constructor
  · rw [hAcc, hT]
  constructor
  · rw [errAt, if_neg (Nat.succ_ne_zero m), hAcc, hT]
  · rw [errAt, if_neg (Nat.succ_ne_zero m), hAcc, hT]

/-- Characterization of the terminated loop: at exit with counter value f,
the state is the one after f - 1 executed iterations, every check passed on
the way kept the loop going, and the exit was due to the counter reaching
NITER or to convergence. -/
def ExitChar (p : ℕ × LoopState d) : Prop :=
  1 ≤ p.1 ∧ p.1 ≤ NITER ∧
    p.2 = stateAt M ux2 uy2 uz2 κ conv T0 (p.1 - 1) ∧
    (∀ m, m + 1 < p.1 → ContinueCond M ux2 uy2 uz2 κ conv T0 m) ∧
    (p.1 = NITER ∨ ¬ ContinueCond M ux2 uy2 uz2 κ conv T0 (p.1 - 1))

theorem runAux_char :
    ∀ fuel i, 1 ≤ i → i ≤ NITER → NITER ≤ fuel + i →
    (∀ m, m + 1 < i → ContinueCond M ux2 uy2 uz2 κ conv T0 m) →
    ExitChar M ux2 uy2 uz2 κ conv T0
      (runAux M ux2 uy2 uz2 κ conv fuel i
        (stateAt M ux2 uy2 uz2 κ conv T0 (i - 1))) := by
  intro fuel
  induction fuel with
  | zero =>
      intro i hi1 hiN hfuel hprev
      have hiEq : i = NITER := le_antisymm hiN (by simpa using hfuel)
      refine ⟨hi1, hiN, rfl, hprev, Or.inl hiEq⟩
  | succ fuel ih =>
      intro i hi1 hiN hfuel hprev
      rw [runAux]
      by_cases hc : i < NITER ∧ ContinueCond M ux2 uy2 uz2 κ conv T0 (i - 1)
      · rw [if_pos]
        · have hstep := stepState_stateAt M ux2 uy2 uz2 κ conv T0 i hi1
          rw [hstep]
          have hIH := ih (i + 1) (Nat.le_succ_of_le hi1) hc.1
            (by omega)
            (by
              intro m hm
              rcases Nat.lt_or_ge (m + 1) i with h1 | h1
              · exact hprev m h1
              · have hmi : m = i - 1 := by omega
                rw [hmi]
                exact hc.2)
          exact hIH
        · exact ⟨hc.1, hc.2⟩
      · rw [if_neg]
        · refine ⟨hi1, hiN, rfl, hprev, ?_⟩
          rcases Nat.lt_or_ge i NITER with hlt | hge
          · right
            intro hcont
            exact hc ⟨hlt, hcont⟩
          · left
            exact le_antisymm hiN hge
        · intro hcond
          exact hc ⟨hcond.1, hcond.2⟩

end CumulLoop

/-- kappa = sqrt(2 * energy) (lpccumtl.c line 94). -/
def kappaOf (energy : ℝ) : ℝ := Real.sqrt (2 * energy)

/-- Convergence threshold: CONV_TEST multiplied with the squared matrix
dimension l_max_2 * l_max_2 where l_max_2 = (l_max_t+1)^2
(lpccumtl.c line 223). -/
def convOf (l_max_t : ℕ) : ℝ :=
  CONV_TEST * (((l_max_t + 1) * (l_max_t + 1) : ℕ) : ℝ) *
    (((l_max_t + 1) * (l_max_t + 1) : ℕ) : ℝ)

/-- The T=0 matrix set up from the backed-up scattering factors, with
l_max_0 clamped to l_max_t (lpccumtl.c lines 124-149). -/
def T0of (l_max_t l_max_0 : ℕ) (tl0 : ℕ → ℂ) (energy : ℝ) :
    CMat ((l_max_t + 1) * (l_max_t + 1)) :=
  T0mat ((l_max_t + 1) * (l_max_t + 1)) (min l_max_0 l_max_t) tl0
    (kappaOf energy)

/-- The terminated iteration loop: counter starts at 1, T_acc starts as a
copy of the T=0 matrix and both relative errors start at twice the
threshold (lpccumtl.c lines 220-228). -/
def loopExit (l_max_t l_max_0 : ℕ) (M : MsSet ((l_max_t + 1) * (l_max_t + 1)))
    (tl0 : ℕ → ℂ) (ux uy uz energy : ℝ) :
    ℕ × LoopState ((l_max_t + 1) * (l_max_t + 1)) :=
  runAux M (ux * ux) (uy * uy) (uz * uz) (kappaOf energy) (convOf l_max_t)
    NITER 1
    ⟨T0of l_max_t l_max_0 tl0 energy, T0of l_max_t l_max_0 tl0 energy,
      2 * convOf l_max_t, 2 * convOf l_max_t⟩

/-- Result of leed_par_cumulative_tl: the output matrix (none on the
no-convergence error path) and whether the zero-displacement warning was
emitted. -/
structure CumulOut (d : ℕ) where
  Tmat : Option (CMat d)
  warnZero : Bool

/-- Embedding of leed_par_cumulative_tl (lpccumtl.c lines 81-355): back up
the scattering factors, set up the T=0 matrix; if all three displacements
are below GEO_TOLERANCE return it scaled by -kappa with a warning
(lines 156-173); otherwise iterate, fail with NULL when the counter reached
NITER (lines 321-325), and otherwise return the accumulator scaled
elementwise by -kappa (lines 327-335).  The matrices from pc_mk_ms enter
as the parameter M (see MsSet). -/
def leed_par_cumulative_tl (l_max_t l_max_0 : ℕ)
    (M : MsSet ((l_max_t + 1) * (l_max_t + 1))) (tl0 : ℕ → ℂ)
    (ux uy uz energy : ℝ) : CumulOut ((l_max_t + 1) * (l_max_t + 1)) :=
  if ux < GEO_TOLERANCE ∧ uy < GEO_TOLERANCE ∧ uz < GEO_TOLERANCE then
    ⟨some ((-(kappaOf energy)) • T0of l_max_t l_max_0 tl0 energy), true⟩
  else if (loopExit l_max_t l_max_0 M tl0 ux uy uz energy).1 = NITER then
    ⟨none, false⟩
  else
    ⟨some ((-(kappaOf energy)) •
      (loopExit l_max_t l_max_0 M tl0 ux uy uz energy).2.Tacc), false⟩

/-- The continuation condition of the loop at the parameters derived from
the function inputs. -/
def CcAt (l_max_t l_max_0 : ℕ) (M : MsSet ((l_max_t + 1) * (l_max_t + 1)))
    (tl0 : ℕ → ℂ) (ux uy uz energy : ℝ) (m : ℕ) : Prop :=
  ContinueCond M (ux * ux) (uy * uy) (uz * uz) (kappaOf energy)
    (convOf l_max_t) (T0of l_max_t l_max_0 tl0 energy) m

/-- The accumulated cumulant series at the parameters derived from the
function inputs. -/
def specAccAt (l_max_t l_max_0 : ℕ) (M : MsSet ((l_max_t + 1) * (l_max_t + 1)))
    (tl0 : ℕ → ℂ) (ux uy uz energy : ℝ) (m : ℕ) :
    CMat ((l_max_t + 1) * (l_max_t + 1)) :=
  specAcc M (ux * ux) (uy * uy) (uz * uz) (kappaOf energy)
    (T0of l_max_t l_max_0 tl0 energy) m

theorem T0mat_eq_diagonal (d lmax0 : ℕ) (tl : ℕ → ℂ) (κ : ℝ) :
    T0mat d lmax0 tl κ =
      Matrix.diagonal (fun i : Fin d =>
        if Nat.sqrt (i : ℕ) ≤ lmax0 then -(tl (Nat.sqrt (i : ℕ))) / (κ : ℂ)
        else 0) := by
  ext i j
  by_cases hij : i = j
  · subst hij
    by_cases hl : Nat.sqrt (i : ℕ) ≤ lmax0 <;>
      simp [T0mat, Matrix.diagonal_apply_eq, hl]
  · simp [T0mat, Matrix.diagonal_apply_ne _ hij, hij]

theorem convOf_pos (l_max_t : ℕ) : 0 < convOf l_max_t := by
  unfold convOf CONV_TEST
  positivity

theorem CcAt_zero (l_max_t l_max_0 : ℕ)
    (M : MsSet ((l_max_t + 1) * (l_max_t + 1))) (tl0 : ℕ → ℂ)
    (ux uy uz energy : ℝ) : CcAt l_max_t l_max_0 M tl0 ux uy uz energy 0 := by
  have h := convOf_pos l_max_t
  unfold CcAt ContinueCond
  left
  rw [errAt, if_pos rfl]
  show convOf l_max_t < 2 * convOf l_max_t
  linarith

theorem loopExit_char (l_max_t l_max_0 : ℕ)
    (M : MsSet ((l_max_t + 1) * (l_max_t + 1))) (tl0 : ℕ → ℂ)
    (ux uy uz energy : ℝ) :
    ExitChar M (ux * ux) (uy * uy) (uz * uz) (kappaOf energy)
      (convOf l_max_t) (T0of l_max_t l_max_0 tl0 energy)
      (loopExit l_max_t l_max_0 M tl0 ux uy uz energy) := by
  unfold loopExit
  rw [show (⟨T0of l_max_t l_max_0 tl0 energy, T0of l_max_t l_max_0 tl0 energy,
      2 * convOf l_max_t, 2 * convOf l_max_t⟩ :
        LoopState ((l_max_t + 1) * (l_max_t + 1))) =
      stateAt M (ux * ux) (uy * uy) (uz * uz) (kappaOf energy)
        (convOf l_max_t) (T0of l_max_t l_max_0 tl0 energy) (1 - 1) from
    (stateAt_zero M (ux * ux) (uy * uy) (uz * uz) (kappaOf energy)
      (convOf l_max_t) (T0of l_max_t l_max_0 tl0 energy)).symm]
  exact runAux_char M (ux * ux) (uy * uy) (uz * uz) (kappaOf energy)
    (convOf l_max_t) (T0of l_max_t l_max_0 tl0 energy) NITER 1
    le_rfl (by norm_num [NITER]) (by norm_num [NITER])
    (by intro m hm; omega)

theorem loopExit_ge_two (l_max_t l_max_0 : ℕ)
    (M : MsSet ((l_max_t + 1) * (l_max_t + 1))) (tl0 : ℕ → ℂ)
    (ux uy uz energy : ℝ) :
    2 ≤ (loopExit l_max_t l_max_0 M tl0 ux uy uz energy).1 := by
  have hchar := loopExit_char l_max_t l_max_0 M tl0 ux uy uz energy
  rcases hchar with ⟨h1, hN, hstate, hprev, hexit⟩
  by_contra hlt
  have hone : (loopExit l_max_t l_max_0 M tl0 ux uy uz energy).1 = 1 := by
    omega
  rcases hexit with hEq | hnc
  · rw [hone] at hEq
    norm_num [NITER] at hEq
  · rw [hone] at hnc
    exact hnc (CcAt_zero l_max_t l_max_0 M tl0 ux uy uz energy)

/-- Claim C4: if ux, uy and uz are all below the geometric tolerance,
leed_par_cumulative_tl returns immediately, without entering the cumulant
iteration, the T=0 diagonal matrix (entries -tl(l)/kappa on the diagonal in
natural (l,m) order for l up to the clamped l_max_0, zero elsewhere) scaled
elementwise by -kappa, and emits a warning. -/
theorem claim_C4 (l_max_t l_max_0 : ℕ)
    (M : MsSet ((l_max_t + 1) * (l_max_t + 1))) (tl0 : ℕ → ℂ)
    (ux uy uz energy : ℝ)
    (hx : ux < GEO_TOLERANCE) (hy : uy < GEO_TOLERANCE)
    (hz : uz < GEO_TOLERANCE) :
    leed_par_cumulative_tl l_max_t l_max_0 M tl0 ux uy uz energy =
      ⟨some ((-(kappaOf energy)) •
        Matrix.diagonal (fun i : Fin ((l_max_t + 1) * (l_max_t + 1)) =>
          if Nat.sqrt (i : ℕ) ≤ min l_max_0 l_max_t then
            -(tl0 (Nat.sqrt (i : ℕ))) / ((kappaOf energy : ℝ) : ℂ)
          else 0)), true⟩ := by
  unfold leed_par_cumulative_tl
  rw [if_pos ⟨hx, hy, hz⟩]
  rw [show T0of l_max_t l_max_0 tl0 energy =
      Matrix.diagonal (fun i : Fin ((l_max_t + 1) * (l_max_t + 1)) =>
        if Nat.sqrt (i : ℕ) ≤ min l_max_0 l_max_t then
          -(tl0 (Nat.sqrt (i : ℕ))) / ((kappaOf energy : ℝ) : ℂ)
        else 0) from by
    rw [T0of, T0mat_eq_diagonal]]

/-- Witness for claim C4 at a concrete input: l_max = 0, zero scattering
factors and zero displacements, energy 1/2. -/
theorem claim_C4_witness :
    ((0 : ℝ) < GEO_TOLERANCE ∧ (0 : ℝ) < GEO_TOLERANCE ∧
      (0 : ℝ) < GEO_TOLERANCE) ∧
    leed_par_cumulative_tl 0 0 ⟨0, 0, 0, 0, 0, 0⟩ (fun _ => 0) 0 0 0 (1/2) =
      ⟨some ((-(kappaOf (1/2))) •
        Matrix.diagonal (fun i : Fin ((0 + 1) * (0 + 1)) =>
          if Nat.sqrt (i : ℕ) ≤ min 0 0 then
            -((fun _ : ℕ => (0 : ℂ)) (Nat.sqrt (i : ℕ))) /
              ((kappaOf (1/2) : ℝ) : ℂ)
          else 0)), true⟩ :=
  ⟨⟨by norm_num [GEO_TOLERANCE], by norm_num [GEO_TOLERANCE],
      by norm_num [GEO_TOLERANCE]⟩,
    claim_C4 0 0 ⟨0, 0, 0, 0, 0, 0⟩ (fun _ => 0) 0 0 0 (1/2)
      (by norm_num [GEO_TOLERANCE]) (by norm_num [GEO_TOLERANCE])
      (by norm_num [GEO_TOLERANCE])⟩

/-- Claim C3: on the non-degenerate path, whenever leed_par_cumulative_tl
returns a matrix, that matrix is the accumulated cumulant sequence
T_(n+1) = -kappa^2/(n+1) * sum over the axes of
u_a^2 (Ma Ma T_n + T_n Ma Ma - 2 Ma T_n Ma), started from the diagonal T=0
matrix and accumulated T_acc += T_(n+1) each step, scaled elementwise
by -kappa (see specT, specAcc). -/
theorem claim_C3 (l_max_t l_max_0 : ℕ)
    (M : MsSet ((l_max_t + 1) * (l_max_t + 1))) (tl0 : ℕ → ℂ)
    (ux uy uz energy : ℝ)
    (hnd : ¬(ux < GEO_TOLERANCE ∧ uy < GEO_TOLERANCE ∧ uz < GEO_TOLERANCE)) :
    (leed_par_cumulative_tl l_max_t l_max_0 M tl0 ux uy uz energy).Tmat =
        none ∨
      ∃ m, 1 ≤ m ∧
        (leed_par_cumulative_tl l_max_t l_max_0 M tl0 ux uy uz energy).Tmat =
          some ((-(kappaOf energy)) •
            specAccAt l_max_t l_max_0 M tl0 ux uy uz energy m) := by
  have hchar := loopExit_char l_max_t l_max_0 M tl0 ux uy uz energy
  rcases hchar with ⟨h1, hN, hstate, hprev, hexit⟩
  unfold leed_par_cumulative_tl
  rw [if_neg hnd]
  by_cases hNit : (loopExit l_max_t l_max_0 M tl0 ux uy uz energy).1 = NITER
  · left
    rw [if_pos hNit]
  · right
    refine ⟨(loopExit l_max_t l_max_0 M tl0 ux uy uz energy).1 - 1, ?_, ?_⟩
    · have h2 := loopExit_ge_two l_max_t l_max_0 M tl0 ux uy uz energy
      omega
    · rw [if_neg hNit]
      rw [hstate]
      rfl

/-- Witness for claim C3 at a concrete input with a nonzero displacement. -/
theorem claim_C3_witness :
    ¬((1 : ℝ) < GEO_TOLERANCE ∧ (0 : ℝ) < GEO_TOLERANCE ∧
        (0 : ℝ) < GEO_TOLERANCE) ∧
    ((leed_par_cumulative_tl 0 0 ⟨0, 0, 0, 0, 0, 0⟩ (fun _ => 0)
          1 0 0 (1/2)).Tmat = none ∨
      ∃ m, 1 ≤ m ∧
        (leed_par_cumulative_tl 0 0 ⟨0, 0, 0, 0, 0, 0⟩ (fun _ => 0)
            1 0 0 (1/2)).Tmat =
          some ((-(kappaOf (1/2))) •
            specAccAt 0 0 ⟨0, 0, 0, 0, 0, 0⟩ (fun _ => 0) 1 0 0 (1/2) m)) :=
  ⟨by norm_num [GEO_TOLERANCE],
    claim_C3 0 0 ⟨0, 0, 0, 0, 0, 0⟩ (fun _ => 0) 1 0 0 (1/2)
      (by norm_num [GEO_TOLERANCE])⟩

/-- Claim C5: on the non-degenerate path the function returns NULL exactly
when the convergence criterion fails at every loop check within the
iteration bound (after each of iterations 1 .. NITER-2); and when the
criterion is first satisfied at some iteration m within that range, the
function returns the accumulated matrix scaled by -kappa. -/
theorem claim_C5 (l_max_t l_max_0 : ℕ)
    (M : MsSet ((l_max_t + 1) * (l_max_t + 1))) (tl0 : ℕ → ℂ)
    (ux uy uz energy : ℝ)
    (hnd : ¬(ux < GEO_TOLERANCE ∧ uy < GEO_TOLERANCE ∧ uz < GEO_TOLERANCE)) :
    ((leed_par_cumulative_tl l_max_t l_max_0 M tl0 ux uy uz energy).Tmat =
        none ↔
      ∀ m, 1 ≤ m → m ≤ NITER - 2 →
        CcAt l_max_t l_max_0 M tl0 ux uy uz energy m) ∧
    (∀ m, 1 ≤ m → m ≤ NITER - 2 →
      ¬ CcAt l_max_t l_max_0 M tl0 ux uy uz energy m →
      (∀ j, 1 ≤ j → j < m → CcAt l_max_t l_max_0 M tl0 ux uy uz energy j) →
      (leed_par_cumulative_tl l_max_t l_max_0 M tl0 ux uy uz energy).Tmat =
        some ((-(kappaOf energy)) •
          specAccAt l_max_t l_max_0 M tl0 ux uy uz energy m)) := by
  have hchar := loopExit_char l_max_t l_max_0 M tl0 ux uy uz energy
  rcases hchar with ⟨h1, hN, hstate, hprev, hexit⟩
  have h2 := loopExit_ge_two l_max_t l_max_0 M tl0 ux uy uz energy
  have hNv : NITER = 1000 := rfl
  constructor
  · constructor
    · intro hnone m hm1 hm2
      have hNit : (loopExit l_max_t l_max_0 M tl0 ux uy uz energy).1 =
          NITER := by
        by_contra hno
        unfold leed_par_cumulative_tl at hnone
        rw [if_neg hnd, if_neg hno] at hnone
        exact Option.some_ne_none _ hnone
      apply hprev
      omega
    · intro hall
      have hNit : (loopExit l_max_t l_max_0 M tl0 ux uy uz energy).1 =
          NITER := by
        by_contra hno
        rcases hexit with hEq | hnc
        · exact hno hEq
        · exact hnc (hall
            ((loopExit l_max_t l_max_0 M tl0 ux uy uz energy).1 - 1)
            (by omega) (by omega))
      unfold leed_par_cumulative_tl
      rw [if_neg hnd, if_pos hNit]
  · intro m hm1 hm2 hmc hleast
    have hNit : (loopExit l_max_t l_max_0 M tl0 ux uy uz energy).1 ≠ NITER := by
      intro hEq
      exact hmc (hprev m (by omega))
    have hml : (loopExit l_max_t l_max_0 M tl0 ux uy uz energy).1 - 1 = m := by
      have hub : (loopExit l_max_t l_max_0 M tl0 ux uy uz energy).1 - 1 ≤ m := by
        by_contra hgt
        exact hmc (hprev m (by omega))
      have hlb : m ≤ (loopExit l_max_t l_max_0 M tl0 ux uy uz energy).1 - 1 := by
        by_contra hgt
        rcases hexit with hEq | hnc
        · exact hNit hEq
        · exact hnc (hleast _ (by omega) (by omega))
      omega
    unfold leed_par_cumulative_tl
    rw [if_neg hnd, if_neg hNit, hstate, hml]
    rfl

/-- Witness for claim C5 at a concrete input with a nonzero displacement. -/
theorem claim_C5_witness :
    ¬((1 : ℝ) < GEO_TOLERANCE ∧ (0 : ℝ) < GEO_TOLERANCE ∧
        (0 : ℝ) < GEO_TOLERANCE) ∧
    (((leed_par_cumulative_tl 0 0 ⟨0, 0, 0, 0, 0, 0⟩ (fun _ => 0)
          1 0 0 (1/2)).Tmat = none ↔
        ∀ m, 1 ≤ m → m ≤ NITER - 2 →
          CcAt 0 0 ⟨0, 0, 0, 0, 0, 0⟩ (fun _ => 0) 1 0 0 (1/2) m) ∧
      (∀ m, 1 ≤ m → m ≤ NITER - 2 →
        ¬ CcAt 0 0 ⟨0, 0, 0, 0, 0, 0⟩ (fun _ => 0) 1 0 0 (1/2) m →
        (∀ j, 1 ≤ j → j < m →
          CcAt 0 0 ⟨0, 0, 0, 0, 0, 0⟩ (fun _ => 0) 1 0 0 (1/2) j) →
        (leed_par_cumulative_tl 0 0 ⟨0, 0, 0, 0, 0, 0⟩ (fun _ => 0)
            1 0 0 (1/2)).Tmat =
          some ((-(kappaOf (1/2))) •
            specAccAt 0 0 ⟨0, 0, 0, 0, 0, 0⟩ (fun _ => 0) 1 0 0 (1/2) m))) :=
  ⟨by norm_num [GEO_TOLERANCE],
    claim_C5 0 0 ⟨0, 0, 0, 0, 0, 0⟩ (fun _ => 0) 1 0 0 (1/2)
      (by norm_num [GEO_TOLERANCE])⟩

/-- A dynamically sized matrix value as held in a mat handle (mat_def.h):
dimensions and a total entry function (0-based). -/
structure DynMat where
  rows : ℕ
  cols : ℕ
  el : ℕ → ℕ → ℂ

/-- Store a d x d complex matrix into a mat handle (matcopy reallocates the
destination to the source shape and overwrites it wholesale). -/
def dynOfMat {d : ℕ} (A : CMat d) : DynMat :=
  ⟨d, d, fun i j => if h : i < d ∧ j < d then A ⟨i, h.1⟩ ⟨j, h.2⟩ else 0⟩

/-- Read the scattering-factor column vector from a mat handle: the 1-based
element (l+1, 1) of the column matrix tl_0, i.e. 0-based (l, 0). -/
def tlOfDyn (v : DynMat) : ℕ → ℂ := fun l => v.el l 0

/-- Memory-level embedding of leed_par_cumulative_tl with two mat handles,
Tmat and tl_0, that may alias (tmatLoc = tl0Loc).  Mirroring the order of
operations in lpccumtl.c: the contents of tl_0 are read once, into the
backup tl_aux (line 118), before anything is written through Tmat; Tmat is
written only by the final matcopy of either the degenerate path (line 161)
or the convergent path (line 327), and is left untouched on the
no-convergence error path (line 324). -/
def cumulative_tl_store (l_max_t l_max_0 : ℕ)
    (M : MsSet ((l_max_t + 1) * (l_max_t + 1))) (ux uy uz energy : ℝ)
    (tmatLoc tl0Loc : Fin 2) (σ : Fin 2 → DynMat) : (Fin 2 → DynMat) × Bool :=
  ((leed_par_cumulative_tl l_max_t l_max_0 M (tlOfDyn (σ tl0Loc))
      ux uy uz energy).Tmat.elim σ
    (fun A => Function.update σ tmatLoc (dynOfMat A)),
   (leed_par_cumulative_tl l_max_t l_max_0 M (tlOfDyn (σ tl0Loc))
      ux uy uz energy).warnZero)

/-- Claim C10: the matrix returned by leed_par_cumulative_tl is a function
only of the contents of tl_0 and the scalar parameters, and does not depend
on the prior contents of the Tmat handle; in particular a run with Tmat
aliased to tl_0 and a run with distinct handles and arbitrary prior Tmat
contents store the same matrix, because tl_0 is backed up before Tmat is
written. -/
theorem claim_C10 (l_max_t l_max_0 : ℕ)
    (M : MsSet ((l_max_t + 1) * (l_max_t + 1))) (ux uy uz energy : ℝ)
    (tmatLoc tl0Loc tmatLoc2 tl0Loc2 : Fin 2) (σ τ : Fin 2 → DynMat)
    (A : CMat ((l_max_t + 1) * (l_max_t + 1)))
    (hsame : σ tl0Loc = τ tl0Loc2)
    (hA : (leed_par_cumulative_tl l_max_t l_max_0 M (tlOfDyn (σ tl0Loc))
        ux uy uz energy).Tmat = some A) :
    (cumulative_tl_store l_max_t l_max_0 M ux uy uz energy
        tmatLoc tl0Loc σ).1 tmatLoc = dynOfMat A ∧
    (cumulative_tl_store l_max_t l_max_0 M ux uy uz energy
        tmatLoc2 tl0Loc2 τ).1 tmatLoc2 = dynOfMat A := by
  constructor
  · unfold cumulative_tl_store
    rw [hA]
    simp [Function.update_same]
  · unfold cumulative_tl_store
    rw [← hsame, hA]
    simp [Function.update_same]

/-- Witness for claim C10 at a concrete input: the degenerate
zero-displacement path, once with Tmat aliased to tl_0 (both handles at
location 0) and once with distinct handles and different prior Tmat
contents. -/
theorem claim_C10_witness :
    ((fun _ : Fin 2 => DynMat.mk 1 1 fun _ _ => 0) 0 =
        (fun l : Fin 2 => DynMat.mk 1 1 fun _ _ => if l = 0 then 7 else 0) 1) ∧
    (leed_par_cumulative_tl 0 0 ⟨0, 0, 0, 0, 0, 0⟩
        (tlOfDyn ((fun _ : Fin 2 => DynMat.mk 1 1 fun _ _ => 0) 0))
        0 0 0 (1/2)).Tmat =
      some ((-(kappaOf (1/2))) • T0of 0 0
        (tlOfDyn ((fun _ : Fin 2 => DynMat.mk 1 1 fun _ _ => 0) 0)) (1/2)) ∧
    ((cumulative_tl_store 0 0 ⟨0, 0, 0, 0, 0, 0⟩ 0 0 0 (1/2) 0 0
        (fun _ : Fin 2 => DynMat.mk 1 1 fun _ _ => 0)).1 0 =
      dynOfMat ((-(kappaOf (1/2))) • T0of 0 0
        (tlOfDyn ((fun _ : Fin 2 => DynMat.mk 1 1 fun _ _ => 0) 0)) (1/2)) ∧
    (cumulative_tl_store 0 0 ⟨0, 0, 0, 0, 0, 0⟩ 0 0 0 (1/2) 0 1
        (fun l : Fin 2 => DynMat.mk 1 1 fun _ _ => if l = 0 then 7 else 0)).1
        0 =
      dynOfMat ((-(kappaOf (1/2))) • T0of 0 0
        (tlOfDyn ((fun _ : Fin 2 => DynMat.mk 1 1 fun _ _ => 0) 0)) (1/2))) := by
  have hsame : (fun _ : Fin 2 => DynMat.mk 1 1 fun _ _ => 0) 0 =
      (fun l : Fin 2 => DynMat.mk 1 1 fun _ _ => if l = 0 then 7 else 0) 1 := by
    norm_num
  have hA : (leed_par_cumulative_tl 0 0 ⟨0, 0, 0, 0, 0, 0⟩
      (tlOfDyn ((fun _ : Fin 2 => DynMat.mk 1 1 fun _ _ => 0) 0))
      0 0 0 (1/2)).Tmat =
      some ((-(kappaOf (1/2))) • T0of 0 0
        (tlOfDyn ((fun _ : Fin 2 => DynMat.mk 1 1 fun _ _ => 0) 0)) (1/2)) := by
    unfold leed_par_cumulative_tl
    rw [if_pos]
    constructor <;> norm_num [GEO_TOLERANCE]
  exact ⟨hsame, hA,
    claim_C10 0 0 ⟨0, 0, 0, 0, 0, 0⟩ 0 0 0 (1/2) 0 0 0 1
      (fun _ : Fin 2 => DynMat.mk 1 1 fun _ _ => 0)
      (fun l : Fin 2 => DynMat.mk 1 1 fun _ _ => if l = 0 then 7 else 0)
      ((-(kappaOf (1/2))) • T0of 0 0
        (tlOfDyn ((fun _ : Fin 2 => DynMat.mk 1 1 fun _ _ => 0) 0)) (1/2))
      hsame hA⟩

end Cumulant

namespace ComplSym

/-- Output bundle of leed_ms_compl_sym: the four k-space layer diffraction
matrices. -/
structure KOut (nb : ℕ) where
  Tpp : Matrix (Fin nb) (Fin nb) ℂ
  Tmm : Matrix (Fin nb) (Fin nb) ℂ
  Rpm : Matrix (Fin nb) (Fin nb) ℂ
  Rmp : Matrix (Fin nb) (Fin nb) ℂ

/-- The giant multiple-scattering matrix assembled by the atom-pair loop of
lmscomplsym.c (lines 462-508), on the block index set atom x (l,m): for
every pair i < j of atoms the block at block position (j, i) holds the
matrix -Tjj Gji and the block at (i, j) holds -Tii Gij (each pair is
processed once; the Mark matrix only prevents reprocessing).  Diagonal
blocks stay zero.  The pair blocks enter as the parameters blockLower
(consumer of Llm_ji) and blockUpper (consumer of Llm_ij); their values
chain through leed_ms_lsum_ij and leed_ms_tmat_ij, the latter not under
the available sources. -/
def giantAssemble (na d : ℕ)
    (blockLower blockUpper : ℕ → ℕ → Matrix (Fin d) (Fin d) ℂ) :
    Matrix (Fin na × Fin d) (Fin na × Fin d) ℂ :=
  Matrix.of fun p q =>
    if (q.1 : ℕ) < (p.1 : ℕ) then blockLower (p.1 : ℕ) (q.1 : ℕ) p.2 q.2
    else if (p.1 : ℕ) < (q.1 : ℕ) then blockUpper (p.1 : ℕ) (q.1 : ℕ) p.2 q.2
    else 0

/-- Identity added to the giant matrix (lmscomplsym.c lines 515-517)
followed by the giant matrix inversion (line 531).  Modelled from the spec:
ms_partinv (partitioned inversion, not under the available sources) is
semantically equivalent to full dense inversion. -/
def giantInv (na d : ℕ)
    (blockLower blockUpper : ℕ → ℕ → Matrix (Fin d) (Fin d) ℂ) :
    Matrix (Fin na × Fin d) (Fin na × Fin d) ℂ :=
  (1 + giantAssemble na d blockLower blockUpper)⁻¹

/-- Origin-shift scaling of lmscomplsym.c lines 831-882: element (k, l) is
multiplied with the row factor lv k and the column factor rv l, in the
order the code multiplies. -/
def scaleRC {nb : ℕ} (lv rv : Fin nb → ℂ) (A : Matrix (Fin nb) (Fin nb) ℂ) :
    Matrix (Fin nb) (Fin nb) ℂ :=
  Matrix.of fun k l => rv l * (lv k * A k l)

/-- The tail of leed_ms_compl_sym from the giant matrix to the four k-space
matrices (lmscomplsym.c lines 738-899): the products L_x * (Mbg * R_x) with
the inverted giant matrix Mbg (lines 738-744), the origin-shift phase
vectors built with cri_expi from the outermost plane coordinates z_min and
z_max (lines 802-821), the row/column scalings (lines 831-882) and the
unscattered-wave propagator added to the diagonals of Tpp and Tmm
(lines 889-899).  The projection matrices L_p, L_m, R_p, R_m (built from
spherical harmonics, atomic t-matrices and per-beam prefactors in
lines 586-729) enter as parameters. -/
def msComplSym (na d nb : ℕ)
    (blockLower blockUpper : ℕ → ℕ → Matrix (Fin d) (Fin d) ℂ)
    (L_p L_m : Matrix (Fin nb) (Fin na × Fin d) ℂ)
    (R_p R_m : Matrix (Fin na × Fin d) (Fin nb) ℂ)
    (beams : Fin nb → LayerDoubling.Beam) (z_min z_max : ℝ) : KOut nb :=
  let G := giantInv na d blockLower blockUpper
  let Tpp0 := L_p * (G * R_p)
  let Rmp0 := L_m * (G * R_p)
  let Tmm0 := L_m * (G * R_m)
  let Rpm0 := L_p * (G * R_m)
  let rmv : Fin nb → ℂ := fun k =>
    cri_expi ((beams k).kr3 * z_max) ((beams k).ki3 * z_max)
  let lpv : Fin nb → ℂ := rmv
  let rpv : Fin nb → ℂ := fun k =>
    cri_expi (-((beams k).kr3 * z_min)) (-((beams k).ki3 * z_min))
  let lmv : Fin nb → ℂ := rpv
  ⟨scaleRC lpv rpv Tpp0 + Matrix.diagonal (fun k => lpv k * rpv k),
   scaleRC lmv rmv Tmm0 + Matrix.diagonal (fun k => lpv k * rpv k),
   scaleRC lpv rmv Rpm0,
   scaleRC lmv rpv Rmp0⟩

/-- The single-sublattice (Bravais) t-matrix construction as the spec words
it: the identical transformation into k-space with no interlayer coupling
terms, i.e. without the giant-matrix factor. -/
def msComplSymBravais (na d nb : ℕ)
    (L_p L_m : Matrix (Fin nb) (Fin na × Fin d) ℂ)
    (R_p R_m : Matrix (Fin na × Fin d) (Fin nb) ℂ)
    (beams : Fin nb → LayerDoubling.Beam) (z_min z_max : ℝ) : KOut nb :=
  let Tpp0 := L_p * R_p
  let Rmp0 := L_m * R_p
  let Tmm0 := L_m * R_m
  let Rpm0 := L_p * R_m
  let rmv : Fin nb → ℂ := fun k =>
    cri_expi ((beams k).kr3 * z_max) ((beams k).ki3 * z_max)
  let lpv : Fin nb → ℂ := rmv
  let rpv : Fin nb → ℂ := fun k =>
    cri_expi (-((beams k).kr3 * z_min)) (-((beams k).ki3 * z_min))
  let lmv : Fin nb → ℂ := rpv
  ⟨scaleRC lpv rpv Tpp0 + Matrix.diagonal (fun k => lpv k * rpv k),
   scaleRC lmv rmv Tmm0 + Matrix.diagonal (fun k => lpv k * rpv k),
   scaleRC lpv rmv Rpm0,
   scaleRC lmv rpv Rmp0⟩

/-- Claim C2: for a composite layer with exactly one atom the pair loop
never executes, so the assembled giant matrix has no off-diagonal blocks
(it is zero), after adding the identity its inverse is the identity, and
the four resulting k-space matrices equal those of the Bravais
construction alone, with no interlayer coupling terms. -/
theorem claim_C2 (na d nb : ℕ) (hna : na = 1)
    (blockLower blockUpper : ℕ → ℕ → Matrix (Fin d) (Fin d) ℂ)
    (L_p L_m : Matrix (Fin nb) (Fin na × Fin d) ℂ)
    (R_p R_m : Matrix (Fin na × Fin d) (Fin nb) ℂ)
    (beams : Fin nb → LayerDoubling.Beam) (z_min z_max : ℝ) :
    giantAssemble na d blockLower blockUpper = 0 ∧
    giantInv na d blockLower blockUpper = 1 ∧
    msComplSym na d nb blockLower blockUpper L_p L_m R_p R_m beams
        z_min z_max =
      msComplSymBravais na d nb L_p L_m R_p R_m beams z_min z_max := by
  subst hna
  have hzero : giantAssemble 1 d blockLower blockUpper = 0 := by
    ext p q
    have hp : (p.1 : ℕ) = 0 := Nat.lt_one_iff.mp p.1.isLt
    have hq : (q.1 : ℕ) = 0 := Nat.lt_one_iff.mp q.1.isLt
    simp [giantAssemble, hp, hq]
  have hinv : giantInv 1 d blockLower blockUpper = 1 := by
    rw [giantInv, hzero, add_zero, inv_one]
  refine ⟨hzero, hinv, ?_⟩
  unfold msComplSym msComplSymBravais
  rw [hinv]
  simp only [Matrix.one_mul]

/-- Witness for claim C2 at a concrete input: one atom, one beam,
one angular-momentum channel, zero blocks and projection matrices. -/
theorem claim_C2_witness :
    (1 : ℕ) = 1 ∧
    (giantAssemble 1 1 (fun _ _ => 0) (fun _ _ => 0) = 0 ∧
      giantInv 1 1 (fun _ _ => 0) (fun _ _ => 0) = 1 ∧
      msComplSym 1 1 1 (fun _ _ => 0) (fun _ _ => 0) 0 0 0 0
          (fun _ => ⟨0, 0, 0, 0⟩) 0 0 =
        msComplSymBravais 1 1 1 0 0 0 0 (fun _ => ⟨0, 0, 0, 0⟩) 0 0) :=
  ⟨rfl,
    claim_C2 1 1 1 rfl (fun _ _ => 0) (fun _ _ => 0) 0 0 0 0
      (fun _ => ⟨0, 0, 0, 0⟩) 0 0⟩

end ComplSym

namespace Lsum

/-- Warn threshold of lmslsumij.c (static const WARN_LEVEL = 1000). -/
def WARN_LEVEL : ℝ := 1000

/-- R_nint (round to the nearest integer) idealized as Mathlib round. -/
def R_nint (x : ℝ) : ℤ := round x

/-- Input bundle of leed_ms_lsum_ij: complex wave vector k_r + i k_i,
incident in-plane wave vector, lattice basis vectors
(a[1] = a1_x, a[2] = a2_x, a[3] = a1_y, a[4] = a2_y), interlayer vector
d_ij and cutoff parameter epsilon. -/
structure LsumArgs where
  k_r : ℝ
  k_i : ℝ
  kin1 : ℝ
  kin2 : ℝ
  a1x : ℝ
  a1y : ℝ
  a2x : ℝ
  a2y : ℝ
  d1 : ℝ
  d2 : ℝ
  d3 : ℝ
  eps : ℝ

/-- Summation radius (lmslsumij.c lines 201-202): -ln(epsilon)/k_i when
epsilon < 1, else epsilon itself. -/
def rmaxOf (s : LsumArgs) : ℝ :=
  if s.eps < 1 then -Real.log s.eps / s.k_i else s.eps

/-- Unit-cell metric quantity f1 = a1.a1 (line 217). -/
def f1 (s : LsumArgs) : ℝ := s.a1x * s.a1x + s.a1y * s.a1y

/-- Unit-cell metric quantity f2 = a2.a2 (line 218). -/
def f2 (s : LsumArgs) : ℝ := s.a2x * s.a2x + s.a2y * s.a2y

/-- Unit-cell metric quantity f12 = a1.a2 (line 219). -/
def f12 (s : LsumArgs) : ℝ := s.a1x * s.a2x + s.a1y * s.a2y

/-- Metric quantity f1d = a1.d (line 220). -/
def f1d (s : LsumArgs) : ℝ := s.a1x * s.d1 + s.a1y * s.d2

/-- Metric quantity f2d = a2.d (line 221). -/
def f2d (s : LsumArgs) : ℝ := s.a2x * s.d1 + s.a2y * s.d2

/-- Metric quantity fd = d.d (line 222). -/
def fd (s : LsumArgs) : ℝ := s.d1 * s.d1 + s.d2 * s.d2 + s.d3 * s.d3

/-- Closed-form bounds (n1_min, n1_max) for the outer lattice index
(lmslsumij.c lines 245-256); r2 is the squared summation radius. -/
def n1Bounds (s : LsumArgs) (r2 : ℝ) : ℤ × ℤ :=
  let fa := f12 s * f12 s - f1 s * f2 s
  let fb := f12 s * f2d s - f1d s * f2 s
  let fc := f2d s * f2d s - f2 s * fd s + f2 s * r2
  let fi := if 0 < fb * fb - fa * fc then Real.sqrt (fb * fb - fa * fc) / fa
    else 0
  let fr := -fb / fa
  (R_nint (fr + fi), R_nint (fr - fi))

/-- Closed-form bounds (n2_min, n2_max) for the inner lattice index at
given n1 (lmslsumij.c lines 266-276). -/
def n2Bounds (s : LsumArgs) (r2 : ℝ) (n1 : ℤ) : ℤ × ℤ :=
  let fb := (n1 : ℝ) * f12 s + f2d s
  let fc := f1 s * (n1 : ℝ) * (n1 : ℝ) + 2 * f1d s * (n1 : ℝ) + fd s - r2
  let fr := -fb / f2 s
  let fi := Real.sqrt (fb * fb - f2 s * fc) / f2 s
  (R_nint (fr - fi), R_nint (fr + fi))

/-- The point r the loop body processes at index pair (n1, n2): the outer
accumulator p0 is initialized to -(n1_max)*a1 at n1 = n1_min and advances
by a1 per step (lines 261-263), so it holds
(-(n1_max) + (n1 - n1_min))*a1; the inner accumulator starts at
p0 + n2_min*a2 and advances by a2 (lines 281-283), holding p0 + n2*a2;
r = d_ij + p (lines 285-287). -/
def visitedPoint (s : LsumArgs) (r2 : ℝ) (n1 n2 : ℤ) : ℝ × ℝ × ℝ :=
  let n1min := (n1Bounds s r2).1
  let n1max := (n1Bounds s r2).2
  let p0x := -(n1max : ℝ) * s.a1x + ((n1 - n1min : ℤ) : ℝ) * s.a1x
  let p0y := -(n1max : ℝ) * s.a1y + ((n1 - n1min : ℤ) : ℝ) * s.a1y
  (s.d1 + (p0x + (n2 : ℝ) * s.a2x), s.d2 + (p0y + (n2 : ℝ) * s.a2y), s.d3)

/-- The lattice point n1*a1 + n2*a2 + d_ij named by the claim and by the
design documentation of lmslsumij.c. -/
def latticePoint (s : LsumArgs) (n1 n2 : ℤ) : ℝ × ℝ × ℝ :=
  (s.d1 + ((n1 : ℝ) * s.a1x + (n2 : ℝ) * s.a2x),
   s.d2 + ((n1 : ℝ) * s.a1y + (n2 : ℝ) * s.a2y),
   s.d3)

/-- Squared length of a point (SQUARE(r_x) + SQUARE(r_y) + SQUARE(r_z),
line 288). -/
def norm2 (r : ℝ × ℝ × ℝ) : ℝ := r.1 * r.1 + r.2.1 * r.2.1 + r.2.2 * r.2.2

/-- The double summation loop of lmslsumij.c lines 261-352: over the index
ranges, accumulate the per-point contribution for every processed point
strictly inside the squared radius and beyond the near-origin tolerance
(line 298).  Modelled from the spec: the per-point
Hankel x Ylm x phase-factor contribution to (Llm_p, Llm_m) is abstracted
into the parameter contrib (c_hank1, r_ylm and the complex helpers are not
under the available sources). -/
def lsumLoop (contrib : ℝ × ℝ × ℝ → (ℕ → ℂ) × (ℕ → ℂ)) (s : LsumArgs)
    (r2 : ℝ) : (ℕ → ℂ) × (ℕ → ℂ) :=
  (Finset.Icc (n1Bounds s r2).1 (n1Bounds s r2).2).sum fun n1 =>
    (Finset.Icc (n2Bounds s r2 n1).1 (n2Bounds s r2 n1).2).sum fun n2 =>
      if norm2 (visitedPoint s r2 n1 n2) < r2 ∧
          GEO_TOLERANCE < norm2 (visitedPoint s r2 n1 n2) then
        contrib (visitedPoint s r2 n1 n2)
      else 0

/-- Embedding of leed_ms_lsum_ij (lmslsumij.c lines 140-361): fail with -1
(none) when the damping k_i is not positive (lines 173-177); otherwise
derive the radius, emit the non-fatal weak-damping warning exactly when it
exceeds WARN_LEVEL (lines 204-209), square it (line 211) and run the
summation loop to completion. -/
def leed_ms_lsum_ij (contrib : ℝ × ℝ × ℝ → (ℕ → ℂ) × (ℕ → ℂ))
    (s : LsumArgs) : Option (Bool × ((ℕ → ℂ) × (ℕ → ℂ))) :=
  if s.k_i ≤ 0 then none
  else
    some (if WARN_LEVEL < rmaxOf s then true else false,
      lsumLoop contrib s (rmaxOf s * rmaxOf s))

/-- Claim C7: leed_ms_lsum_ij fails (returns -1, embedded as none) exactly
when k_i ≤ 0; for every k_i > 0 with a summation radius beyond the warn
threshold it emits only a non-fatal warning and completes the computation
normally (returns the loop result with the warning flag set). -/
theorem claim_C7 (contrib : ℝ × ℝ × ℝ → (ℕ → ℂ) × (ℕ → ℂ))
    (s : LsumArgs) :
    (leed_ms_lsum_ij contrib s = none ↔ s.k_i ≤ 0) ∧
    (0 < s.k_i → WARN_LEVEL < rmaxOf s →
      leed_ms_lsum_ij contrib s =
        some (true, lsumLoop contrib s (rmaxOf s * rmaxOf s))) := by
  constructor
  · constructor
    · intro hnone
      by_contra hpos
      unfold leed_ms_lsum_ij at hnone
      rw [if_neg hpos] at hnone
      exact Option.some_ne_none _ hnone
    · intro hneg
      unfold leed_ms_lsum_ij
      rw [if_pos hneg]
  · intro hpos hwarn
    unfold leed_ms_lsum_ij
    rw [if_neg (not_le.mpr hpos), if_pos hwarn]

/-- A concrete input for the claim C7 witness: unit damping and an
absolute radius of 2000, beyond the warn threshold. -/
def cex7 : LsumArgs := ⟨1, 1, 0, 0, 1, 0, 0, 1, 0, 0, 0, 2000⟩

/-- Witness for claim C7 at the concrete input cex7 with the zero
contribution function. -/
theorem claim_C7_witness :
    (leed_ms_lsum_ij (fun _ => 0) cex7 = none ↔ cex7.k_i ≤ 0) ∧
    (0 < cex7.k_i → WARN_LEVEL < rmaxOf cex7 →
      leed_ms_lsum_ij (fun _ => 0) cex7 =
        some (true,
          lsumLoop (fun _ => 0) cex7 (rmaxOf cex7 * rmaxOf cex7))) :=
  claim_C7 (fun _ => 0) cex7

/-- The concrete failing geometry for claim C6: square lattice a1 = (1,0),
a2 = (0,1), interlayer vector d_ij = (10, 0, 0), k = 1 + i, zero incident
in-plane wave vector, epsilon = 2 (an absolute radius of 2). -/
def cex6 : LsumArgs := ⟨1, 1, 0, 0, 1, 0, 0, 1, 10, 0, 0, 2⟩

theorem cex6_n1Bounds : n1Bounds cex6 4 = (-12, -8) := by
  have h4 : Real.sqrt 4 = 2 := by
    rw [show (4 : ℝ) = 2 ^ 2 by norm_num, Real.sqrt_sq]
    norm_num
  unfold n1Bounds R_nint f1 f2 f12 f1d f2d fd cex6
  norm_num [h4, round_eq]

theorem cex6_n2Bounds : n2Bounds cex6 4 (-9) = (-2, 2) := by
  have hlt : Real.sqrt 3 < 5 / 2 := by
    rw [show (5 : ℝ) / 2 = Real.sqrt ((5 / 2) ^ 2) from
      (Real.sqrt_sq (by norm_num)).symm]
    apply Real.sqrt_lt_sqrt <;> norm_num
  have hgt : (3 : ℝ) / 2 < Real.sqrt 3 := by
    have h := Real.sq_sqrt (show (0 : ℝ) ≤ 3 by norm_num)
    nlinarith [Real.sqrt_nonneg 3]
  have hrm : round (-Real.sqrt 3) = -2 := by
    rw [round_eq, Int.floor_eq_iff]
    constructor
    · push_cast
      linarith
    · push_cast
      linarith
  have hrp : round (Real.sqrt 3) = 2 := by
    rw [round_eq, Int.floor_eq_iff]
    constructor
    · push_cast
      linarith
    · push_cast
      linarith
  unfold n2Bounds R_nint f1 f2 f12 f1d f2d fd cex6
  norm_num [hrm, hrp]

/-- Claim C6 (code divergence at the failing input): at the geometry cex6
with squared radius 4, the index pair (-9, 0) lies inside the computed
closed-form ranges and its lattice point (-9)*a1 + 0*a2 + d_ij = (1,0,0)
lies strictly inside the radius and beyond the near-origin tolerance, yet
the loop processes the point (21, 0, 0) at that index pair, and no index
pair within the n1 range processes (1,0,0) at all: the outer position
accumulator starts at -(n1_max)*a1 instead of n1_min*a1. -/
theorem claim_C6_divergence :
    ((-9 : ℤ) ∈ Finset.Icc (n1Bounds cex6 4).1 (n1Bounds cex6 4).2 ∧
      (0 : ℤ) ∈ Finset.Icc (n2Bounds cex6 4 (-9)).1
        (n2Bounds cex6 4 (-9)).2) ∧
    (norm2 (latticePoint cex6 (-9) 0) < 4 ∧
      GEO_TOLERANCE < norm2 (latticePoint cex6 (-9) 0)) ∧
    visitedPoint cex6 4 (-9) 0 = (21, 0, 0) ∧
    (∀ n1 n2 : ℤ,
      n1 ∈ Finset.Icc (n1Bounds cex6 4).1 (n1Bounds cex6 4).2 →
      visitedPoint cex6 4 n1 n2 ≠ latticePoint cex6 (-9) 0) := by
  have h1B := cex6_n1Bounds
  have h2B := cex6_n2Bounds
  refine ⟨⟨?_, ?_⟩, ⟨?_, ?_⟩, ?_, ?_⟩
  · rw [h1B]
    decide
  · rw [h2B]
    decide
  · unfold norm2 latticePoint cex6
    norm_num
  · unfold norm2 latticePoint cex6 GEO_TOLERANCE
    norm_num
  · unfold visitedPoint
    rw [h1B]
    unfold cex6
    norm_num
  · intro n1 n2 hn1 heq
    rw [h1B] at hn1
    rw [Finset.mem_Icc] at hn1
    have hx := congrArg Prod.fst heq
    unfold visitedPoint latticePoint at hx
    rw [h1B] at hx
    unfold cex6 at hx
    norm_num at hx
    have hcast : (-12 : ℝ) ≤ (n1 : ℝ) := by
      exact_mod_cast hn1.1
    linarith

end Lsum

end

namespace BeamSort

/-- Tolerance in k_par, constant K_TOLERANCE (default 0.0001, leed_def.h).
The numeric domain of the sorting passes is idealized as exact rationals
so that the passes are executable. -/
def K_TOLERANCE : ℚ := 1/10000

/-- The beam fields the sorting passes of lbmgen.c read and reorder:
squared parallel momentum k_par (line 256 stores k_x^2 + k_y^2) and the
two fractional indices. -/
structure SBeam where
  k_par : ℚ
  ind1 : ℚ
  ind2 : ℚ
deriving DecidableEq

/-- One inner loop of the first sorting pass (lbmgen.c lines 280-291) with
current front occupant x: whenever a later element has smaller k_par it is
exchanged with the front position, and the displaced occupant takes its
place for the rest of the scan.  Returns the final front element and the
remaining segment. -/
def selPar (x : SBeam) : List SBeam → SBeam × List SBeam
  | [] => (x, [])
  | y :: ys =>
      if y.k_par < x.k_par then
        ((selPar y ys).1, x :: (selPar y ys).2)
      else
        ((selPar x ys).1, y :: (selPar x ys).2)

theorem selPar_length (xs : List SBeam) :
    ∀ x, (selPar x xs).2.length = xs.length := by
  induction xs with
  | nil => intro x; rfl
  | cons y ys ih =>
      intro x
      by_cases h : y.k_par < x.k_par <;>
        simp [selPar, h, ih]

/-- The outer loop of the first sorting pass, recursing on the remaining
number of positions (selPar preserves the segment length, so the count
never runs out when started at the segment length). -/
def pass1Go : ℕ → List SBeam → List SBeam
  | _, [] => []
  | 0, l => l
  | n + 1, x :: xs => (selPar x xs).1 :: pass1Go n (selPar x xs).2

/-- The first sorting pass over one beam-set segment (lbmgen.c
lines 280-291): ascending k_par. -/
def pass1 (l : List SBeam) : List SBeam := pass1Go l.length l

/-- The combined exchange condition of the second sorting pass (lbmgen.c
lines 303-315): the first if exchanges on a smaller first index; the
second if, evaluated on the post-exchange values (so it never fires right
after the first did), exchanges on an equal first index and a smaller
second index.  Together: exchange exactly on a lexicographically smaller
(ind1, ind2).  IS_EQUAL_REAL is modelled as exact equality. -/
def lexLt (y x : SBeam) : Prop :=
  y.ind1 < x.ind1 ∨ (y.ind1 = x.ind1 ∧ y.ind2 < x.ind2)

instance (y x : SBeam) : Decidable (lexLt y x) :=
  inferInstanceAs (Decidable (_ ∨ _))

/-- One inner scan of the second sorting pass (lbmgen.c lines 297-316) with
current front occupant x: the scan advances while the k_par of the
inspected element is within K_TOLERANCE of the front occupant, exchanging
on lexicographically smaller (ind1, ind2); it stops at the first element
out of tolerance.  The missing bounds check of the C loop (it would read
past the current segment) is modelled as stopping at the segment end. -/
def scanLex (x : SBeam) : List SBeam → SBeam × List SBeam
  | [] => (x, [])
  | y :: ys =>
      if |y.k_par - x.k_par| < K_TOLERANCE then
        if lexLt y x then
          ((scanLex y ys).1, x :: (scanLex y ys).2)
        else
          ((scanLex x ys).1, y :: (scanLex x ys).2)
      else (x, y :: ys)

theorem scanLex_length (xs : List SBeam) :
    ∀ x, (scanLex x xs).2.length = xs.length := by
  induction xs with
  | nil => intro x; rfl
  | cons y ys ih =>
      intro x
      by_cases h1 : |y.k_par - x.k_par| < K_TOLERANCE
      · by_cases h2 : lexLt y x <;> simp [scanLex, h1, h2, ih]
      · simp [scanLex, h1]

/-- The outer loop of the second sorting pass, recursing on the remaining
number of positions (scanLex preserves the segment length). -/
def pass2Go : ℕ → List SBeam → List SBeam
  | _, [] => []
  | 0, l => l
  | n + 1, x :: xs => (scanLex x xs).1 :: pass2Go n (scanLex x xs).2

/-- The second sorting pass over one beam-set segment (lbmgen.c
lines 297-316). -/
def pass2 (l : List SBeam) : List SBeam := pass2Go l.length l

/-- Both sorting passes, applied by leed_beam_gen to each beam-set segment
after collecting it (lbmgen.c lines 273-325). -/
def beamSetSort (l : List SBeam) : List SBeam := pass2 (pass1 l)

/-- The counterexample segment: a beam with k_par 0 and indices (1, 0),
a beam whose k_par is within K_TOLERANCE but nonzero with smaller indices,
and a well separated third beam. -/
def cex8 : List SBeam := [⟨0, 1, 0⟩, ⟨1/20000, 0, 0⟩, ⟨1, 0, 0⟩]

/-- Claim C8 counterexample: on the segment cex8 the two passes produce a
list whose stored k_par values are not monotonically non-decreasing: the
index tie-break of the second pass exchanges the two beams whose distinct
k_par values lie within K_TOLERANCE, leaving k_par = 1/20000 before
k_par = 0. -/
theorem claim_C8_counterexample :
    beamSetSort cex8 = [⟨1/20000, 0, 0⟩, ⟨0, 1, 0⟩, ⟨1, 0, 0⟩] ∧
    ¬ List.Sorted (fun a b : SBeam => a.k_par ≤ b.k_par) (beamSetSort cex8) := by
  have ha1b : |(1 : ℚ)/20000| < 1/10000 := by
    rw [abs_of_nonneg (by norm_num)]
    norm_num
  have heq : beamSetSort cex8 = [⟨1/20000, 0, 0⟩, ⟨0, 1, 0⟩, ⟨1, 0, 0⟩] := by
    unfold beamSetSort cex8 pass1 pass2
    norm_num [pass1Go, pass2Go, selPar, scanLex, lexLt, K_TOLERANCE, ha1b]
  refine ⟨heq, ?_⟩
  rw [heq]
  intro hs
  rcases List.sorted_cons.mp hs with ⟨hhead, _⟩
  have hle := hhead ⟨0, 1, 0⟩ (by simp)
  norm_num at hle

/-- The k_par field as a function (used to compare k_par sequences). -/
def kp (b : SBeam) : ℚ := b.k_par

/-- Sorted by non-decreasing k_par. -/
def KSorted (l : List SBeam) : Prop :=
  List.Sorted (fun a b => a.k_par ≤ b.k_par) l

/-- The canonical beam order of the claim: ascending k_par, ties broken by
ascending first index, then by ascending second index. -/
def beamLe (a b : SBeam) : Prop :=
  a.k_par < b.k_par ∨ (a.k_par = b.k_par ∧
    (a.ind1 < b.ind1 ∨ (a.ind1 = b.ind1 ∧ a.ind2 ≤ b.ind2)))

/-- Any two k_par values of the list that lie within K_TOLERANCE of each
other are exactly equal (no distinct values closer than the tolerance). -/
def Separated (l : List SBeam) : Prop :=
  ∀ a ∈ l, ∀ b ∈ l, |a.k_par - b.k_par| < K_TOLERANCE → a.k_par = b.k_par

theorem beamLe_refl (a : SBeam) : beamLe a a :=
  Or.inr ⟨rfl, Or.inr ⟨rfl, le_rfl⟩⟩

theorem beamLe_trans {a b c : SBeam} (h1 : beamLe a b) (h2 : beamLe b c) :
    beamLe a c := by
  rcases h1 with h1 | ⟨hk1, h1⟩
  · rcases h2 with h2 | ⟨hk2, _⟩
    · exact Or.inl (h1.trans h2)
    · exact Or.inl (lt_of_lt_of_eq h1 hk2)
  · rcases h2 with h2 | ⟨hk2, h2⟩
    · exact Or.inl (lt_of_eq_of_lt hk1 h2)
    · refine Or.inr ⟨hk1.trans hk2, ?_⟩
      rcases h1 with h1 | ⟨hi1, h1⟩
      · rcases h2 with h2 | ⟨hi2, _⟩
        · exact Or.inl (h1.trans h2)
        · exact Or.inl (lt_of_lt_of_eq h1 hi2)
      · rcases h2 with h2 | ⟨hi2, h2⟩
        · exact Or.inl (lt_of_eq_of_lt hi1 h2)
        · exact Or.inr ⟨hi1.trans hi2, h1.trans h2⟩

theorem selPar_perm (xs : List SBeam) :
    ∀ x, ((selPar x xs).1 :: (selPar x xs).2).Perm (x :: xs) := by
  induction xs with
  | nil => intro x; rfl
  | cons y ys ih =>
      intro x
      by_cases h : y.k_par < x.k_par
      · simp only [selPar, if_pos h]
        have hswap : ((selPar y ys).1 :: x :: (selPar y ys).2).Perm
            (x :: (selPar y ys).1 :: (selPar y ys).2) := List.Perm.swap _ _ _
        exact hswap.trans ((ih y).cons x)
      · simp only [selPar, if_neg h]
        have hswap : ((selPar x ys).1 :: y :: (selPar x ys).2).Perm
            (y :: (selPar x ys).1 :: (selPar x ys).2) := List.Perm.swap _ _ _
        have hswap2 : (y :: x :: ys).Perm (x :: y :: ys) := List.Perm.swap _ _ _
        exact (hswap.trans ((ih x).cons y)).trans hswap2

theorem selPar_min (xs : List SBeam) :
    ∀ x, (selPar x xs).1.k_par ≤ x.k_par ∧
      ∀ b ∈ (selPar x xs).2, (selPar x xs).1.k_par ≤ b.k_par := by
  induction xs with
  | nil =>
      intro x
      exact ⟨le_rfl, by simp [selPar]⟩
  | cons y ys ih =>
      intro x
      by_cases h : y.k_par < x.k_par
      · simp only [selPar, if_pos h]
        refine ⟨(ih y).1.trans h.le, ?_⟩
        intro b hb
        rcases List.mem_cons.mp hb with hb | hb
        · rw [hb]
          exact (ih y).1.trans h.le
        · exact (ih y).2 b hb
      · simp only [selPar, if_neg h]
        refine ⟨(ih x).1, ?_⟩
        intro b hb
        rcases List.mem_cons.mp hb with hb | hb
        · rw [hb]
          exact (ih x).1.trans (not_lt.mp h)
        · exact (ih x).2 b hb

theorem pass1Go_perm : ∀ n l, (pass1Go n l).Perm l := by
  intro n
  induction n with
  | zero =>
      intro l
      cases l <;> rfl
  | succ n ih =>
      intro l
      cases l with
      | nil => rfl
      | cons x xs =>
          exact ((ih (selPar x xs).2).cons (selPar x xs).1).trans
            (selPar_perm xs x)

theorem pass1Go_sorted : ∀ n l, l.length ≤ n → KSorted (pass1Go n l) := by
  intro n
  induction n with
  | zero =>
      intro l hl
      rw [List.length_eq_zero.mp (Nat.le_zero.mp hl)]
      exact List.sorted_nil
  | succ n ih =>
      intro l hl
      cases l with
      | nil => exact List.sorted_nil
      | cons x xs =>
          show KSorted ((selPar x xs).1 :: pass1Go n (selPar x xs).2)
          rw [KSorted, List.sorted_cons]
          constructor
          · intro b hb
            have hb2 : b ∈ (selPar x xs).2 :=
              (pass1Go_perm n (selPar x xs).2).mem_iff.mp hb
            exact (selPar_min xs x).2 b hb2
          · have hlen : (selPar x xs).2.length ≤ n := by
              rw [selPar_length]
              exact Nat.succ_le_succ_iff.mp hl
            exact ih (selPar x xs).2 hlen

theorem ksorted_iff_map (l : List SBeam) :
    KSorted l ↔ List.Sorted (fun p q : ℚ => p ≤ q) (l.map kp) := by
  unfold KSorted List.Sorted
  rw [List.pairwise_map]
  rfl

theorem scanLex_perm (xs : List SBeam) :
    ∀ x, ((scanLex x xs).1 :: (scanLex x xs).2).Perm (x :: xs) := by
  induction xs with
  | nil => intro x; rfl
  | cons y ys ih =>
      intro x
      by_cases h1 : |y.k_par - x.k_par| < K_TOLERANCE
      · by_cases h2 : lexLt y x
        · simp only [scanLex, if_pos h1, if_pos h2]
          have hswap : ((scanLex y ys).1 :: x :: (scanLex y ys).2).Perm
              (x :: (scanLex y ys).1 :: (scanLex y ys).2) :=
            List.Perm.swap _ _ _
          exact hswap.trans ((ih y).cons x)
        · simp only [scanLex, if_pos h1, if_neg h2]
          have hswap : ((scanLex x ys).1 :: y :: (scanLex x ys).2).Perm
              (y :: (scanLex x ys).1 :: (scanLex x ys).2) :=
            List.Perm.swap _ _ _
          have hswap2 : (y :: x :: ys).Perm (x :: y :: ys) :=
            List.Perm.swap _ _ _
          exact (hswap.trans ((ih x).cons y)).trans hswap2
      · simp only [scanLex, if_neg h1]
        rfl

theorem not_lexLt {y x : SBeam} (h : ¬ lexLt y x) :
    x.ind1 < y.ind1 ∨ (x.ind1 = y.ind1 ∧ x.ind2 ≤ y.ind2) := by
  unfold lexLt at h
  push_neg at h
  rcases lt_or_le x.ind1 y.ind1 with h1 | h1
  · exact Or.inl h1
  · have he : x.ind1 = y.ind1 := le_antisymm h.1 h1
    exact Or.inr ⟨he, h.2 he.symm⟩

theorem scanLex_spec (xs : List SBeam) :
    ∀ x,
    (∀ b ∈ x :: xs, ∀ c ∈ x :: xs,
      |b.k_par - c.k_par| < K_TOLERANCE → b.k_par = c.k_par) →
    KSorted (x :: xs) →
    (scanLex x xs).1.k_par = x.k_par ∧
    (scanLex x xs).2.map kp = xs.map kp ∧
    beamLe (scanLex x xs).1 x ∧
    (∀ b ∈ (scanLex x xs).2, beamLe (scanLex x xs).1 b) := by
  have hKpos : (0 : ℚ) < K_TOLERANCE := by norm_num [K_TOLERANCE]
  induction xs with
  | nil =>
      intro x _ _
      refine ⟨rfl, rfl, beamLe_refl x, ?_⟩
      intro b hb
      simp [scanLex] at hb
  | cons y ys ih =>
      intro x hsep hsort
      rcases List.sorted_cons.mp hsort with ⟨hx, hys⟩
      by_cases h1 : |y.k_par - x.k_par| < K_TOLERANCE
      · have hkeq : y.k_par = x.k_par :=
          hsep y (by simp) x (by simp) h1
        by_cases h2 : lexLt y x
        · simp only [scanLex, if_pos h1, if_pos h2]
          have hsub : ∀ b ∈ y :: ys, ∀ c ∈ y :: ys,
              |b.k_par - c.k_par| < K_TOLERANCE → b.k_par = c.k_par := by
            intro b hb c hc h
            exact hsep b (List.mem_cons_of_mem x hb)
              c (List.mem_cons_of_mem x hc) h
          have hIH := ih y hsub hys
          have hyx : beamLe y x := by
            rcases h2 with h2 | ⟨h2a, h2b⟩
            · exact Or.inr ⟨hkeq, Or.inl h2⟩
            · exact Or.inr ⟨hkeq, Or.inr ⟨h2a, h2b.le⟩⟩
          refine ⟨hIH.1.trans hkeq, ?_, ?_, ?_⟩
          · show kp x :: (scanLex y ys).2.map kp = kp y :: ys.map kp
            rw [hIH.2.1]
            rw [show kp x = kp y from (congrArg _ rfl).trans hkeq.symm]
          · exact beamLe_trans hIH.2.2.1 hyx
          · intro b hb
            rcases List.mem_cons.mp hb with hb | hb
            · rw [hb]
              exact beamLe_trans hIH.2.2.1 hyx
            · exact hIH.2.2.2 b hb
        · simp only [scanLex, if_pos h1, if_neg h2]
          have hsub : ∀ b ∈ x :: ys, ∀ c ∈ x :: ys,
              |b.k_par - c.k_par| < K_TOLERANCE → b.k_par = c.k_par := by
            intro b hb c hc h
            rcases List.mem_cons.mp hb with hb | hb
            · rcases List.mem_cons.mp hc with hc | hc
              · rw [hb, hc]
              · exact hsep b (by simp [hb]) c (by simp [hc]) h
            · rcases List.mem_cons.mp hc with hc | hc
              · exact hsep b (by simp [hb]) c (by simp [hc]) h
              · exact hsep b (by simp [hb]) c (by simp [hc]) h
          have hsort2 : KSorted (x :: ys) := by
            rw [KSorted, List.sorted_cons]
            refine ⟨?_, (List.sorted_cons.mp hys).2⟩
            intro b hb
            exact hx b (List.mem_cons_of_mem y hb)
          have hIH := ih x hsub hsort2
          have hxy : beamLe x y := by
            rcases not_lexLt h2 with h3 | ⟨h3a, h3b⟩
            · exact Or.inr ⟨hkeq.symm, Or.inl h3⟩
            · exact Or.inr ⟨hkeq.symm, Or.inr ⟨h3a, h3b⟩⟩
          refine ⟨hIH.1, ?_, hIH.2.2.1, ?_⟩
          · show kp y :: (scanLex x ys).2.map kp = kp y :: ys.map kp
            rw [hIH.2.1]
          · intro b hb
            rcases List.mem_cons.mp hb with hb | hb
            · rw [hb]
              exact beamLe_trans hIH.2.2.1 hxy
            · exact hIH.2.2.2 b hb
      · simp only [scanLex, if_neg h1]
        refine ⟨by simp, by simp, beamLe_refl x, ?_⟩
        intro b hb
        have hxy : x.k_par < y.k_par := by
          have hne : y.k_par ≠ x.k_par := by
            intro he
            rw [he] at h1
            simp at h1
            exact absurd h1 (not_le.mpr hKpos)
          exact lt_of_le_of_ne (hx y (by simp)) (Ne.symm hne)
        rcases List.mem_cons.mp hb with hb | hb
        · rw [hb]
          exact Or.inl hxy
        · have hyb : y.k_par ≤ b.k_par :=
            (List.sorted_cons.mp hys).1 b hb
          exact Or.inl (hxy.trans_le hyb)

theorem pass2Go_perm : ∀ n l, (pass2Go n l).Perm l := by
  intro n
  induction n with
  | zero =>
      intro l
      cases l <;> rfl
  | succ n ih =>
      intro l
      cases l with
      | nil => rfl
      | cons x xs =>
          exact ((ih (scanLex x xs).2).cons (scanLex x xs).1).trans
            (scanLex_perm xs x)

theorem pass2Go_sorted : ∀ n l, l.length ≤ n →
    (∀ b ∈ l, ∀ c ∈ l,
      |b.k_par - c.k_par| < K_TOLERANCE → b.k_par = c.k_par) →
    KSorted l → List.Sorted beamLe (pass2Go n l) := by
  intro n
  induction n with
  | zero =>
      intro l hl _ _
      rw [List.length_eq_zero.mp (Nat.le_zero.mp hl)]
      exact List.sorted_nil
  | succ n ih =>
      intro l hl hsep hsort
      cases l with
      | nil => exact List.sorted_nil
      | cons x xs =>
          show List.Sorted beamLe
            ((scanLex x xs).1 :: pass2Go n (scanLex x xs).2)
          have hspec := scanLex_spec xs x hsep hsort
          have hmemout : ∀ b ∈ (scanLex x xs).2, b ∈ x :: xs := by
            intro b hb
            exact (scanLex_perm xs x).mem_iff.mp
              (List.mem_cons_of_mem (scanLex x xs).1 hb)
          rw [List.sorted_cons]
          constructor
          · intro b hb
            have hb2 : b ∈ (scanLex x xs).2 :=
              (pass2Go_perm n (scanLex x xs).2).mem_iff.mp hb
            exact hspec.2.2.2 b hb2
          · refine ih (scanLex x xs).2 ?_ ?_ ?_
            · rw [scanLex_length]
              exact Nat.succ_le_succ_iff.mp hl
            · intro b hb c hc h
              exact hsep b (hmemout b hb) c (hmemout c hc) h
            · rw [ksorted_iff_map, hspec.2.1, ← ksorted_iff_map]
              exact (List.sorted_cons.mp hsort).2

/-- Claim C8 as amended: when every within-K_TOLERANCE pair of k_par values
in the segment is exactly equal (distinct k_par values are separated by at
least the tolerance), the two sorting passes produce a permutation of the
segment sorted by ascending k_par with ties broken by ascending
(ind1, ind2). -/
theorem claim_C8_amended (l : List SBeam) (hsep : Separated l) :
    (beamSetSort l).Perm l ∧ List.Sorted beamLe (beamSetSort l) := by
  have hperm1 : (pass1 l).Perm l := pass1Go_perm l.length l
  have hperm2 : (pass2 (pass1 l)).Perm (pass1 l) :=
    pass2Go_perm (pass1 l).length (pass1 l)
  constructor
  · exact hperm2.trans hperm1
  · show List.Sorted beamLe (pass2 (pass1 l))
    refine pass2Go_sorted (pass1 l).length (pass1 l) le_rfl ?_ ?_
    · intro b hb c hc h
      exact hsep b (hperm1.mem_iff.mp hb) c (hperm1.mem_iff.mp hc) h
    · exact pass1Go_sorted l.length l le_rfl

/-- Witness for the amended claim C8 at a concrete input: a singleton
segment, trivially separated. -/
theorem claim_C8_amended_witness :
    Separated [(⟨1, 2, 3⟩ : SBeam)] ∧
    ((beamSetSort [(⟨1, 2, 3⟩ : SBeam)]).Perm [(⟨1, 2, 3⟩ : SBeam)] ∧
      List.Sorted beamLe (beamSetSort [(⟨1, 2, 3⟩ : SBeam)])) :=
  ⟨by
    intro a ha b hb _
    rw [List.mem_singleton] at ha hb
    rw [ha, hb],
   claim_C8_amended [(⟨1, 2, 3⟩ : SBeam)] (by
    intro a ha b hb _
    rw [List.mem_singleton] at ha hb
    rw [ha, hb])⟩

end BeamSort

namespace Mktl

/-- Modelled from the spec: the diagonal temperature-treatment flag value
T_DIAG (leed_def.h is not among the available sources; the data model
admits exactly the two flag values, their numeric encodings are
immaterial). -/
def T_DIAG : ℤ := 1

/-- Modelled from the spec: the non-diagonal temperature-treatment flag
value T_NOND. -/
def T_NOND : ℤ := 2

/-- One set of phase shifts (leed_phase, modelled from the spec data model
and the field usage in leed_par_mktl_nd): maximum angular momentum,
number of tabulated energies, tabulated energy range, the energy table,
the flattened phase-shift table (row-major: entry i_eng * (lmax+1) + l)
and the temperature-treatment flag.  Energies are idealized as exact
rationals. -/
structure LeedPhase where
  lmax : ℕ
  n_eng : ℕ
  eng_min : ℚ
  eng_max : ℚ
  energy : ℕ → ℚ
  pshift : ℕ → ℚ
  t_type : ℤ

/-- The linearly extrapolated phase shift for energies at or above the
tabulated maximum (leed_par_mktl_nd, part_002 lines 511-526):
delta(l) = p[last] - (p[last] - p[last-1]) / (E[last] - E[last-1])
* (E[last] - energy), the line through the last two tabulated points. -/
def extrapDelta (p : LeedPhase) (energy : ℚ) (l : ℕ) : ℚ :=
  let i_eng := p.n_eng - 1
  let ls1 := p.lmax + 1
  p.pshift (i_eng * ls1 + l) -
    (p.pshift (i_eng * ls1 + l) - p.pshift ((i_eng - 1) * ls1 + l)) /
      (p.energy i_eng - p.energy (i_eng - 1)) *
    (p.energy i_eng - energy)

/-- The scan of the tabulated energies on the interpolation path
(part_002 lines 567-568): the first index whose tabulated energy is not
below the requested energy (an in-range energy guarantees one below
n_eng exists; n_eng is the fallback of the model). -/
def interpIndex (p : LeedPhase) (energy : ℚ) : ℕ :=
  ((List.range p.n_eng).find? fun i => decide (¬ p.energy i < energy)).getD
    p.n_eng

/-- The interpolated phase shift for in-range energies (part_002
lines 570-584): the same linear formula through the tabulated points
i_eng - 1 and i_eng with i_eng the scan result. -/
def interpDelta (p : LeedPhase) (energy : ℚ) (l : ℕ) : ℚ :=
  let i_eng := interpIndex p energy
  let ls1 := p.lmax + 1
  p.pshift (i_eng * ls1 + l) -
    (p.pshift (i_eng * ls1 + l) - p.pshift ((i_eng - 1) * ls1 + l)) /
      (p.energy i_eng - p.energy (i_eng - 1)) *
    (p.energy i_eng - energy)

/-- The atomic scattering factor built from a phase shift delta
(part_002 lines 521-525): cri_mul of (cos delta, sin delta) with
(sin delta, 0), i.e. (cos d * sin d, sin d * sin d).  The cosine and sine
enter as the parameters c and s (R_cos and R_sin are primitives not under
the available sources). -/
def tlEntry (c s : ℚ → ℚ) (delta : ℚ) : ℚ × ℚ :=
  (c delta * s delta - s delta * 0, c delta * 0 + s delta * s delta)

/-- Processing of one phase-shift set by leed_par_mktl_nd (part_002
lines 445-619): fail on an unknown t_type (lines 450-466); fail when the
energy is below the tabulated minimum (lines 483-500); for an energy at or
above the tabulated maximum, warn and compute the scattering factors from
the extrapolated phase shifts (lines 501-526), then apply the temperature
step for the flag (leed_par_temp_tl or leed_par_cumulative_tl, both
abstracted as the parameters tempDiag and tempNond since their effect on
this claim is opaque); otherwise interpolate without warning
(lines 559-617).  none models the fatal path (exit / return NULL). -/
def mktlSet (c s : ℚ → ℚ)
    (tempDiag tempNond : (ℕ → ℚ × ℚ) → (ℕ → ℚ × ℚ))
    (p : LeedPhase) (energy : ℚ) : Option (Bool × (ℕ → ℚ × ℚ)) :=
  if p.t_type ≠ T_DIAG ∧ p.t_type ≠ T_NOND then none
  else if energy < p.eng_min then none
  else if p.eng_max ≤ energy then
    some (true,
      if p.t_type = T_DIAG then
        tempDiag fun l => tlEntry c s (extrapDelta p energy l)
      else
        tempNond fun l => tlEntry c s (extrapDelta p energy l))
  else
    some (false,
      if p.t_type = T_DIAG then
        tempDiag fun l => tlEntry c s (interpDelta p energy l)
      else
        tempNond fun l => tlEntry c s (interpDelta p energy l))

/-- leed_par_mktl_nd over the set list: each set is processed in order and
any failing set makes the whole function fail (return NULL). -/
def leed_par_mktl_nd (c s : ℚ → ℚ)
    (tempDiag tempNond : (ℕ → ℚ × ℚ) → (ℕ → ℚ × ℚ))
    (sets : List LeedPhase) (energy : ℚ) :
    Option (List (Bool × (ℕ → ℚ × ℚ))) :=
  sets.mapM fun p => mktlSet c s tempDiag tempNond p energy

/-- Claim C9: for every phase-shift set (one whose temperature-treatment
flag carries one of its two legal values, per the data model) with at
least two tabulated energies, the per-set computation of leed_par_mktl_nd
fails exactly when the requested energy is below the set's tabulated
minimum; for every energy at or above the tabulated maximum it emits only
a warning and computes the scattering factors from phase shifts linearly
extrapolated from the last two tabulated points, continuing with the
temperature step. -/
theorem claim_C9 (c s : ℚ → ℚ)
    (tempDiag tempNond : (ℕ → ℚ × ℚ) → (ℕ → ℚ × ℚ))
    (p : LeedPhase) (energy : ℚ)
    (hvalid : p.t_type = T_DIAG ∨ p.t_type = T_NOND)
    (htwo : 2 ≤ p.n_eng) :
    (mktlSet c s tempDiag tempNond p energy = none ↔ energy < p.eng_min) ∧
    (¬ energy < p.eng_min → p.eng_max ≤ energy →
      mktlSet c s tempDiag tempNond p energy =
        some (true,
          if p.t_type = T_DIAG then
            tempDiag fun l => tlEntry c s (extrapDelta p energy l)
          else
            tempNond fun l => tlEntry c s (extrapDelta p energy l))) := by
  have hflag : ¬ (p.t_type ≠ T_DIAG ∧ p.t_type ≠ T_NOND) := by
    rcases hvalid with h | h
    · intro hc
      exact hc.1 h
    · intro hc
      exact hc.2 h
  constructor
  · constructor
    · intro hnone
      by_contra hge
      unfold mktlSet at hnone
      rw [if_neg hflag, if_neg hge] at hnone
      by_cases hhi : p.eng_max ≤ energy
      · rw [if_pos hhi] at hnone
        exact Option.some_ne_none _ hnone
      · rw [if_neg hhi] at hnone
        exact Option.some_ne_none _ hnone
    · intro hlow
      unfold mktlSet
      rw [if_neg hflag, if_pos hlow]
  · intro hge hhi
    unfold mktlSet
    rw [if_neg hflag, if_neg hge, if_pos hhi]

/-- Witness for claim C9 at a concrete input: a diagonal set with two
tabulated energies at 1 and 2 and a requested energy of 3. -/
theorem claim_C9_witness :
    ((LeedPhase.mk 0 2 1 2 (fun i => if i = 0 then 1 else 2) (fun _ => 0)
        T_DIAG).t_type = T_DIAG ∨
      (LeedPhase.mk 0 2 1 2 (fun i => if i = 0 then 1 else 2) (fun _ => 0)
        T_DIAG).t_type = T_NOND) ∧
    2 ≤ (LeedPhase.mk 0 2 1 2 (fun i => if i = 0 then 1 else 2) (fun _ => 0)
        T_DIAG).n_eng ∧
    ((mktlSet id id id id
        (LeedPhase.mk 0 2 1 2 (fun i => if i = 0 then 1 else 2) (fun _ => 0)
          T_DIAG) 3 = none ↔
        (3 : ℚ) < (LeedPhase.mk 0 2 1 2 (fun i => if i = 0 then 1 else 2)
          (fun _ => 0) T_DIAG).eng_min) ∧
      (¬ (3 : ℚ) < (LeedPhase.mk 0 2 1 2 (fun i => if i = 0 then 1 else 2)
          (fun _ => 0) T_DIAG).eng_min →
        (LeedPhase.mk 0 2 1 2 (fun i => if i = 0 then 1 else 2) (fun _ => 0)
          T_DIAG).eng_max ≤ 3 →
        mktlSet id id id id
          (LeedPhase.mk 0 2 1 2 (fun i => if i = 0 then 1 else 2)
            (fun _ => 0) T_DIAG) 3 =
          some (true,
            if (LeedPhase.mk 0 2 1 2 (fun i => if i = 0 then 1 else 2)
                (fun _ => 0) T_DIAG).t_type = T_DIAG then
              id fun l => tlEntry id id
                (extrapDelta (LeedPhase.mk 0 2 1 2
                  (fun i => if i = 0 then 1 else 2) (fun _ => 0) T_DIAG) 3 l)
            else
              id fun l => tlEntry id id
                (extrapDelta (LeedPhase.mk 0 2 1 2
                  (fun i => if i = 0 then 1 else 2) (fun _ => 0) T_DIAG)
                  3 l)))) :=
  ⟨Or.inl rfl, le_refl 2,
    claim_C9 id id id id
      (LeedPhase.mk 0 2 1 2 (fun i => if i = 0 then 1 else 2) (fun _ => 0)
        T_DIAG) 3 (Or.inl rfl) (le_refl 2)⟩

end Mktl

end CLEED
